import Mathlib

/-!
Verification development for the qemu-compose instance lifecycle engine.

Each Python function named in the claims is shallowly embedded as an
executable Lean definition, translated from the source in
`src/qemu_compose/`.  Host effects (file system contents, ioctl results,
spawned processes, the wall clock, Python `str.format` expansion) are
passed in as explicit parameters, so every definition stays computable.
-/

namespace QemuCompose

/-! ### utils/hostnames.py : to_valid_hostname -/

/-- Python `str.lower` restricted to ASCII, which is the only case the
hostname pipeline can distinguish: any character whose lowercase form is
outside `[a-z0-9-]` is replaced by a dash right after lowering. -/
def pyLower (c : Char) : Char := c.toLower

/-- Membership in the character class `[a-z0-9-]` (stated on code
points, `a`..`z` = 97..122, `0`..`9` = 48..57, `-` = 45). -/
def isHostChar (c : Char) : Bool :=
  (97 ≤ c.toNat && c.toNat ≤ 122) || (48 ≤ c.toNat && c.toNat ≤ 57) || c.toNat = 45

/-- `re.sub(r"[^a-z0-9-]", "-", ·)` acting on one character. -/
def subChar (c : Char) : Char := if isHostChar c then c else '-'

/-- `re.sub(r"-+", "-", ·)`: collapse each run of dashes to one dash. -/
def collapseDashes : List Char → List Char
  | [] => []
  | [c] => [c]
  | a :: b :: rest =>
    if a = '-' ∧ b = '-' then collapseDashes (b :: rest)
    else a :: collapseDashes (b :: rest)

/-- `str.strip('-')`: drop leading and trailing dashes. -/
def stripDashes (l : List Char) : List Char :=
  ((l.dropWhile (fun c => c = '-')).reverse.dropWhile (fun c => c = '-')).reverse

/-- No two adjacent dashes (what `re.sub(r"-+", "-", ·)` guarantees). -/
def NoDashRun (l : List Char) : Prop :=
  List.Chain' (fun a b => ¬(a = '-' ∧ b = '-')) l

/-- Lower, substitute, collapse and strip — the pipeline of
`to_valid_hostname` before truncation and the empty fallback. -/
def hostnameCore (l : List Char) : List Char :=
  stripDashes (collapseDashes (l.map (fun c => subChar (pyLower c))))

/-- `qemu_compose.utils.hostnames.to_valid_hostname`. -/
def to_valid_hostname (s : String) : String :=
  let r := hostnameCore s.data
  let t := if r.length > 63 then r.take 63 else r
  if t.isEmpty then "vm" else String.mk t

/-! ### image/manifest.py : RepoTag -/

structure RepoTag where
  repo : String
  tag : String
deriving DecidableEq, Repr

/-- Split a character list at the first colon, when there is one.
Models Python `s.split(':', maxsplit=1)` guarded by `':' in s`. -/
def splitAtFirstColon : List Char → Option (List Char × List Char)
  | [] => none
  | c :: rest =>
    if c = ':' then some ([], rest)
    else
      match splitAtFirstColon rest with
      | some (a, b) => some (c :: a, b)
      | none => none

/-- `RepoTag.from_str`. -/
def RepoTag.from_str (s : String) : RepoTag :=
  match splitAtFirstColon s.data with
  | some (r, t) => ⟨String.mk r, String.mk t⟩
  | none => ⟨s, "latest"⟩

/-- `RepoTag.match_name`. -/
def RepoTag.match_name (rt : RepoTag) (name : String) : Bool :=
  match splitAtFirstColon name.data with
  | some (r, t) => rt.repo = String.mk r && rt.tag = String.mk t
  | none => rt.repo = name && rt.tag = "latest"

/-- The `repo:tag` rendering used when manifests are serialized; the
round-trip claim is stated against `RepoTag.from_str` through it. -/
def RepoTag.formatStr (rt : RepoTag) : String :=
  rt.repo ++ ":" ++ rt.tag

/-- Python `str.startswith(p)` / `p.isPrefixOf s`, on the character
lists (the byte-position variants of core do not reduce in the
kernel). -/
def strStartsWith (s p : String) : Bool := List.isPrefixOf p.data s.data

/-- `p.isPrefixOf s` with the prefix first (`token.startswith` style
call sites: `i.startswith(token)` is `strIsPrefixOf token i`). -/
def strIsPrefixOf (p s : String) : Bool := List.isPrefixOf p.data s.data

/-- Python `str.endswith(p)`. -/
def strEndsWith (s p : String) : Bool := List.isSuffixOf p.data s.data

/-- Python `s[n:]` — drop the first `n` characters. -/
def strDropChars (s : String) (n : Nat) : String := String.mk (s.data.drop n)

/-- Python `s[:n]` — take the first `n` characters. -/
def strTakeChars (s : String) (n : Nat) : String := String.mk (s.data.take n)

/-! ### A JSON value model (the input of `json.load`) -/

inductive Json where
  | null
  | bool (b : Bool)
  | num (n : Int)
  | str (s : String)
  | arr (xs : List Json)
  | obj (kvs : List (String × Json))
deriving Repr

/-- Python truthiness of a JSON value (floats are not modelled). -/
def Json.truthy : Json → Bool
  | .null => false
  | .bool b => b
  | .num n => n != 0
  | .str s => s ≠ ""
  | .arr xs => !xs.isEmpty
  | .obj kvs => !kvs.isEmpty

/-- First-match association lookup, Python `dict.get` on parsed JSON
(JSON objects produced by `json.load` have unique keys). -/
def jsonLookup : List (String × Json) → String → Option Json
  | [], _ => none
  | (k, v) :: rest, key => if k = key then some v else jsonLookup rest key

/-- `obj.get(key)`: absent keys give Python `None`. -/
def pyGet (kvs : List (String × Json)) (key : String) : Json :=
  (jsonLookup kvs key).getD Json.null

/-- Python `str` on the scalar values the manifest parser can receive.
The engine only ever coerces scalars here; container renderings are not
modelled. -/
def pyStr : Json → String
  | .str s => s
  | .num n => toString n
  | .bool b => if b then "True" else "False"
  | .null => "None"
  | .arr _ => "<list>"
  | .obj _ => "<dict>"

/-- `str(obj.get(key) or "")`. -/
def getStrOrEmpty (kvs : List (String × Json)) (key : String) : String :=
  let v := pyGet kvs key
  if v.truthy then pyStr v else ""

/-! ### image/manifest.py : DiskSpec, ImageManifest -/

structure DiskSpec where
  filename : String
  format : String
  opts : String
deriving DecidableEq, Repr

/-- `DiskSpec.from_array`.  The source stores the raw array elements; the
embedding keeps the string case, the only one the engine's later string
concatenation (`drive_param_for`) accepts. -/
def DiskSpec.from_array : List Json → Option DiskSpec
  | [] => none
  | [Json.str f] => some ⟨f, "qcow2", ""⟩
  | [Json.str f, Json.str fmt] => some ⟨f, fmt, ""⟩
  | Json.str f :: Json.str fmt :: Json.str opts :: _ => some ⟨f, fmt, opts⟩
  | _ => none

/-- The manifest record.  `created` keeps the raw JSON value that
`parse_datetime` receives; `parse_datetime` is total (it falls back to the
epoch on anything malformed), so no error path is lost, and none of the
verified claims inspects the parsed instant. -/
structure ImageManifest where
  id : String
  architecture : String
  os : String
  created : Json
  repo_tags : List RepoTag
  disks : List DiskSpec
  qemu_args : List String
  digest : String
  comment : Option String
deriving Repr

/-- `ImageManifest.from_dict`.  A non-object input raises
(`AttributeError` on `.get`); a truthy non-array in one of the sequence
fields also raises in the model (Python would iterate strings or dict
keys there; no caller produces that shape). -/
def ImageManifest.from_dict : Json → Except Unit ImageManifest
  | Json.obj kvs => do
    let repoTagsRaw ← match pyGet kvs "repo_tags" with
      | Json.arr xs => Except.ok xs
      | v => if v.truthy then Except.error () else Except.ok []
    let disksRaw ← match pyGet kvs "disks" with
      | Json.arr xs => Except.ok xs
      | v => if v.truthy then Except.error () else Except.ok []
    let qemuArgsRaw ← match pyGet kvs "qemu_args" with
      | Json.arr xs => Except.ok xs
      | v => if v.truthy then Except.error () else Except.ok []
    let repoTags := (repoTagsRaw.filterMap (fun t =>
      match t with
      | Json.str s => some (RepoTag.from_str s)
      | _ => none))
    let disks := (disksRaw.filterMap (fun item =>
      match item with
      | Json.arr a => DiskSpec.from_array a
      | _ => none))
    let qemuArgs := (qemuArgsRaw.filterMap (fun a =>
      match a with
      | Json.str s => some s
      | Json.num n => some (toString n)
      | _ => none))
    let comment := match pyGet kvs "comment" with
      | Json.str s => some s
      | Json.num n => some (toString n)
      | _ => none
    Except.ok
      { id := getStrOrEmpty kvs "id"
        architecture := getStrOrEmpty kvs "architecture"
        os := getStrOrEmpty kvs "os"
        created := pyGet kvs "created"
        repo_tags := repoTags
        disks := disks
        qemu_args := qemuArgs
        digest := getStrOrEmpty kvs "digest"
        comment := comment }
  | _ => Except.error ()

/-- `ImageManifest.load_file`, given the outcome of reading and parsing
`<image_dir>/manifest.json`: `none` models a missing file or a
`json.load` failure, both of which raise. -/
def loadFile : Option Json → Except Unit ImageManifest
  | none => Except.error ()
  | some j => ImageManifest.from_dict j

/-- `ImageManifest.has_repo_tag`. -/
def ImageManifest.has_repo_tag (m : ImageManifest) (name : String) : Bool :=
  m.repo_tags.any (fun rt => rt.match_name name)

/-! ### image/__init__.py : listing and resolution

An image root is modelled as the `os.listdir` view of its
subdirectories: each entry pairs the directory name (the image id) with
the parse outcome of its `manifest.json`. -/

abbrev ImageStore : Type := List (String × Option Json)

/-- `qemu_compose.utils.list_subdirs` on the modelled root. -/
def list_subdirs (store : ImageStore) : List String :=
  (show List (String × Option Json) from store).map Prod.fst

/-- `os.path.join` for the relative paths the engine builds. -/
def pathJoin (a b : String) : String :=
  if strStartsWith b "/" then b
  else if a = "" then b
  else if strEndsWith a "/" then a ++ b
  else a ++ "/" ++ b

/-- `_short_image_id`. -/
def short_image_id (digest : String) : String :=
  if digest = "" then "<none>"
  else if strStartsWith digest "sha256:" then strTakeChars (strDropChars digest 7) 12
  else strTakeChars digest 12

/-- `_size_from_manifest`; `fileSize` stands for `os.path.getsize` with
its `OSError → 0` fallback. -/
def size_from_manifest (fileSize : String → Nat) (imageDir : String)
    (m : ImageManifest) : Nat :=
  (m.disks.map (fun d => fileSize (pathJoin imageDir d.filename))).sum

/-- One `images` table row: repo, tag, short id, created, size. -/
abbrev ImageRow : Type := String × String × String × String × String

/-- `_rows_for_image`.  `ageHuman` stands for
`humanize_age ∘ parse_datetime` (it consults the wall clock), `sizeHuman`
for `human_readable_size` (float formatting); both are total in the
source. -/
def rows_for_image (ageHuman : Json → String) (sizeHuman : Nat → String)
    (fileSize : String → Nat) (imageRoot : String)
    (imageId : String) (mj : Option Json) : Except Unit (List ImageRow) := do
  let dirPath := pathJoin imageRoot imageId
  let m ← loadFile mj
  let createdHuman := ageHuman m.created
  let idShort := short_image_id m.digest
  let sizeH := sizeHuman (size_from_manifest fileSize dirPath m)
  Except.ok (m.repo_tags.map (fun rt =>
    ((if rt.repo = "" then "<none>" else rt.repo),
     (if rt.tag = "" then "<none>" else rt.tag),
     idShort, createdHuman, sizeH)))

/-- `list_image`: the comprehension evaluates `_rows_for_image` on every
subdirectory in listdir order; an exception from any of them propagates. -/
def list_image (ageHuman : Json → String) (sizeHuman : Nat → String)
    (fileSize : String → Nat) (imageRoot : String) :
    ImageStore → Except Unit (List ImageRow)
  | [] => Except.ok []
  | (imageId, mj) :: rest => do
    let rows ← rows_for_image ageHuman sizeHuman fileSize imageRoot imageId mj
    let restRows ← list_image ageHuman sizeHuman fileSize imageRoot rest
    Except.ok (rows ++ restRows)

/-- `load_image_by_name`: scan subdirectories in order, parse each
manifest (exceptions propagate), return the first whose `repo_tags`
matches. -/
def load_image_by_name : ImageStore → String → Except Unit (Option ImageManifest)
  | [], _ => Except.ok none
  | (_, mj) :: rest, name => do
    let m ← loadFile mj
    if m.has_repo_tag name then Except.ok (some m)
    else load_image_by_name rest name

/-- `resolve_image_by_prefix` (exact id, then unique id-prefix). -/
def resolve_image_by_pfx (store : ImageStore) (token : String) :
    Option String × List String :=
  let ids := list_subdirs store
  if token ∈ ids then (some token, [token])
  else
    let hits := ids.filter (fun i => strIsPrefixOf token i)
    match hits with
    | [m] => (some m, [m])
    | _ => (none, hits)

/-- `resolve_image`: exact `repo[:tag]` name first (a manifest dataclass
is always truthy), then id / id-prefix resolution. -/
def resolve_image (store : ImageStore) (token : String) :
    Except Unit (Option String × List String) := do
  match ← load_image_by_name store token with
  | some found => Except.ok (some found.id, [found.id])
  | none => Except.ok (resolve_image_by_pfx store token)

/-! ### instance/qemu_runner.py : parse_port_spec and hostfwd synthesis -/

/-- ASCII whitespace stripped by Python `str.strip()`. -/
def isPySpace (c : Char) : Bool :=
  c = ' ' || c = '\t' || c = '\n' || c = '\r' || c = '\x0b' || c = '\x0c'

/-- Python `str.strip()` on a character list. -/
def pyStripList (l : List Char) : List Char :=
  ((l.dropWhile isPySpace).reverse.dropWhile isPySpace).reverse

/-- Python `str.strip()`. -/
def pyStrip (s : String) : String := String.mk (pyStripList s.data)

/-- Python `str.lower()` (ASCII). -/
def pyLowerStr (s : String) : String := String.mk (s.data.map pyLower)

/-- `str.partition('/')`: body before the first slash, whether a slash
was found, and the suffix after it. -/
def partitionSlash : List Char → List Char × Bool × List Char
  | [] => ([], false, [])
  | c :: rest =>
    if c = '/' then ([], true, rest)
    else
      let (b, f, s) := partitionSlash rest
      (c :: b, f, s)

/-- `str.split(':')` (all occurrences; empty segments kept). -/
def splitOnColon : List Char → List (List Char)
  | [] => [[]]
  | c :: rest =>
    if c = ':' then [] :: splitOnColon rest
    else
      match splitOnColon rest with
      | h :: t => (c :: h) :: t
      | [] => [[c]]

/-- `parse_port_spec` (closure inside `setup_qemu_args`). -/
def parse_port_spec (spec : String) : Option (String × String × String × String) :=
  let (body, sepFound, suffix) := partitionSlash spec.data
  let proto0 :=
    if sepFound then
      let p := pyLowerStr (String.mk (pyStripList suffix))
      if p = "" then "tcp" else p
    else "tcp"
  let proto := if proto0 = "tcp" ∨ proto0 = "udp" then proto0 else "tcp"
  let parts := (splitOnColon body).map (fun p => String.mk (pyStripList p))
  match parts with
  | [a, b, c] => some (proto, a, b, c)
  | [a, b] => some (proto, "", a, b)
  | _ => none

/-- `format_hostfwd`. -/
def format_hostfwd (item : String × String × String × String) : String :=
  ",hostfwd=" ++ item.1 ++ ":" ++ item.2.1 ++ ":" ++ item.2.2.1 ++ "-:" ++ item.2.2.2

/-- `hostfwd_segments`. -/
def hostfwd_segments (ports : List String) : String :=
  String.join ((ports.filterMap parse_port_spec).map format_hostfwd)

/-! ### instance/qemu_runner.py : QemuConfig -/

/-- `QemuConfig`; each field holds the raw (YAML/JSON) value the Python
dataclass stores.  `instanceField` renders the Python field named
`instance` (a Lean keyword). -/
structure QemuConfig where
  name : Json
  binary : Json
  network : Json
  image : Json
  instanceField : Json
  env : Json
  qemu_args : Json
  ports : Json
  volumes : Json
  boot_commands : Json
  before_script : Json
  after_script : Json
  http_serve : Json
deriving Repr

/-- `QemuConfig.from_dict`.  The constructor call passes no `instance`
argument, so the dataclass default `None` is always used. -/
def QemuConfig.from_dict (d : List (String × Json)) : QemuConfig :=
  { name := pyGet d "name"
    binary := pyGet d "binary"
    network := pyGet d "network"
    image := pyGet d "image"
    instanceField := Json.null
    env := (jsonLookup d "env").getD (Json.arr [])
    qemu_args := (jsonLookup d "qemu_args").getD (Json.arr [])
    ports := (jsonLookup d "ports").getD (Json.arr [])
    volumes := (jsonLookup d "volumes").getD (Json.arr [])
    boot_commands := (jsonLookup d "boot_commands").getD (Json.arr [])
    before_script := (jsonLookup d "before_script").getD (Json.arr [])
    after_script := (jsonLookup d "after_script").getD (Json.arr [])
    http_serve := (jsonLookup d "http_serve").getD (Json.obj []) }

/-- `QemuConfig.to_dict` (`self.__dict__`, in field declaration order). -/
def QemuConfig.to_dict (c : QemuConfig) : List (String × Json) :=
  [("name", c.name), ("binary", c.binary), ("network", c.network),
   ("image", c.image), ("instance", c.instanceField), ("env", c.env),
   ("qemu_args", c.qemu_args), ("ports", c.ports), ("volumes", c.volumes),
   ("boot_commands", c.boot_commands), ("before_script", c.before_script),
   ("after_script", c.after_script), ("http_serve", c.http_serve)]

/-! ### cmd/start_command.py : command_start up to the config merge

The instance root is modelled as the `os.listdir` view: each entry pairs
a vmid directory with the `safe_read` outcome of its `name` file
(`none` for unreadable or empty). -/

abbrev InstanceStore : Type := List (String × Option String)

/-- `_list_vmids`. -/
def list_vmids (store : InstanceStore) : List String :=
  (show List (String × Option String) from store).map Prod.fst

/-- `_build_name_index` as an ordered name→vmid sequence; the Python
dict comprehension keeps the last binding for a duplicated name. -/
def build_name_index (store : InstanceStore) : List (String × String) :=
  (show List (String × Option String) from store).filterMap
    (fun p => match p.2 with
      | some n => some (n, p.1)
      | none => none)

/-- Lookup in the comprehension-built dict: the last entry wins. -/
def lookupLast (l : List (String × String)) (k : String) : Option String :=
  ((l.filter (fun p => p.1 = k)).getLast?).map Prod.snd

/-- `_resolve_identifier`. -/
def resolve_identifier (ids : List String) (nameIndex : List (String × String))
    (token : String) : Option String × List String :=
  if token ∈ ids then (some token, [token])
  else
    match lookupLast nameIndex token with
    | some vmid => (some vmid, [vmid])
    | none =>
      let hits := ids.filter (fun i => strIsPrefixOf token i)
      match hits with
      | [m] => (some m, [m])
      | _ => (none, hits)

/-- The Python exceptions `command_start` can raise before launching. -/
inductive PyErr where
  | frozenInstanceError
  | nameError
  | typeError
deriving DecidableEq, Repr

/-- What `command_start` does with the configuration before any VM work:
an early `return 1`, or the configuration the run would proceed with. -/
inductive StartOutcome where
  | earlyExit (code : Nat)
  | proceeds (cfg : QemuConfig)
deriving Repr

/-- `command_start` up to the point where later phases would use the
configuration.  `cliDoc` is the parsed YAML document behind `-f CONFIG`
(`none` when no config file was given).  The source line
`config.instance = vmid` assigns an attribute of a frozen dataclass,
which raises `FrozenInstanceError`; when no config file was given,
`config` is an unbound local there and the line raises `NameError`
instead.  Everything after that line is unreachable whenever a vmid was
resolved — including the `QemuConfig.load_json` merge, which would
itself raise `NameError` (`json` is never imported in qemu_runner.py)
and be swallowed by the bare `except`. -/
def command_start_model (store : InstanceStore) (identifier : Option String)
    (cliDoc : Option (List (String × Json))) : Except PyErr StartOutcome := do
  let idTruthy : Bool := match identifier with
    | some s => s != ""
    | none => false
  let ids := list_vmids store
  let nameIndex := build_name_index store
  let resolved0 : Option String × List String :=
    match identifier with
    | some ident => if ident ≠ "" then resolve_identifier ids nameIndex ident else (none, [])
    | none => (none, [])
  let step : Except PyErr (Option QemuConfig × (Option String × List String)) :=
    match cliDoc with
    | some kvs =>
      let config := QemuConfig.from_dict kvs
      if resolved0.1 = none ∧ config.name.truthy then
        -- `ids`/`name_index` are locals of the `if identifier:` block
        if idTruthy then
          match config.name with
          | Json.str s => Except.ok (some config, resolve_identifier ids nameIndex s)
          | _ => Except.error PyErr.typeError
        else Except.error PyErr.nameError
      else Except.ok (some config, resolved0)
    | none => Except.ok (none, resolved0)
  let (configOpt, resolved) ← step
  match resolved.1 with
  | none => Except.ok (StartOutcome.earlyExit 1)
  | some _ =>
    -- line 76: `config.instance = vmid`
    match configOpt with
    | none => Except.error PyErr.nameError
    | some _ => Except.error PyErr.frozenInstanceError

/-! ### utils/vsock.py : get_available_guest_cid -/

/-- Outcome of the `VHOST_VSOCK_SET_GUEST_CID` ioctl for one candidate:
accepted, `EADDRINUSE`, or any other `IOError`. -/
inductive IoctlRes where
  | ok
  | busy
  | err
deriving DecidableEq, Repr

/-- The `while guest_cid <= 0xFFFFFFFF` loop: accepted candidates
return, `EADDRINUSE` advances, any other error is re-raised. -/
def cid_loop (ioctl : Nat → IoctlRes) (cid : Nat) : Except Unit (Option Nat) :=
  if _h : cid ≤ 0xFFFFFFFF then
    match ioctl cid with
    | IoctlRes.ok => Except.ok (some cid)
    | IoctlRes.busy => cid_loop ioctl (cid + 1)
    | IoctlRes.err => Except.error ()
  else Except.ok none
termination_by 0x100000000 - cid

/-- Result of `get_available_guest_cid`: the returned value (or the
propagated exception), and whether the `/dev/vhost-vsock` handle is
still open when the function returns. -/
structure VsockResult where
  value : Except Unit (Option Nat)
  fdOpen : Bool
deriving Repr

/-- `get_available_guest_cid`.  `deviceOpens` models whether
`os.open('/dev/vhost-vsock', O_RDWR)` succeeds (`FileNotFoundError` and
`PermissionError` both return `None` without a handle).  The
`try/finally` around the loop runs `os.close(vsock_fd)` on every exit
path — return, exhaustion and re-raise alike — so the handle is never
open when the function returns. -/
def get_available_guest_cid (deviceOpens : Bool) (ioctl : Nat → IoctlRes)
    (start : Nat) : VsockResult :=
  if deviceOpens then
    { value := cid_loop ioctl start, fdOpen := false }
  else
    { value := Except.ok none, fdOpen := false }

/-! ### instance/qemu_runner.py : setup_qemu_args

The argument vector is modelled as `List (Option String)`: `none` is a
Python `None` appended by `args.append(val)` in the manifest-append loop
when an empty manifest argument makes `extract_format_or_default` return
its `None` default.  Host effects live in explicit parameters:
`fmt` is `str.format(**env)` over the already-populated runtime
environment, `pub_b64`/`fstab_b64` are the base64 encodings, `cpuCount`
is `str(os.cpu_count())`, and `virtiofsdOk i` says whether the i-th
volume's virtiofsd child started and its socket appeared in time. -/

abbrev AssocS : Type := List (String × String)

/-- `key in d`. -/
def assocHasKey : AssocS → String → Bool
  | [], _ => false
  | p :: rest, k => if p.1 = k then true else assocHasKey rest k

/-- `d.get(key)` on the default-argument dict. -/
def assocLookup : AssocS → String → Option String
  | [], _ => none
  | p :: rest, k => if p.1 = k then some p.2 else assocLookup rest k

/-- `dict.pop(key, None)`: remove the key, keep the order of the rest. -/
def assocPop : AssocS → String → AssocS
  | [], _ => []
  | p :: rest, k => if p.1 = k then assocPop rest k else p :: assocPop rest k

/-- `d[key] = val` on an existing key: the value changes, the position
does not. -/
def assocSet : AssocS → String → String → AssocS
  | [], _, _ => []
  | p :: rest, k, v => if p.1 = k then (k, v) :: assocSet rest k v else p :: assocSet rest k v

/-- `extract_format_or_default(block, key, env)`: `block.get(key)`,
falsy values give the `None` default, truthy values are coerced to `str`
and format-expanded. -/
def extractVal (fmt : String → String) (block : List (String × Json))
    (key : String) : Option String :=
  match jsonLookup block key with
  | some value => if value.truthy then some (fmt (pyStr value)) else none
  | none => none

/-- The first pass over `image_manifest.qemu_args`: arguments of the
form `-<key>` pop the key from the default set; the argument following a
popped `-m` becomes the memory size (unexpanded). -/
def image_args_pass : List String → AssocS → String → AssocS × String
  | [], da, mem => (da, mem)
  | a :: rest, da, mem =>
    if strStartsWith a "-" then
      let key := strDropChars a 1
      if assocHasKey da key then
        let da' := assocPop da key
        let mem' :=
          if key = "m" then
            match rest.head? with
            | some nxt => nxt
            | none => mem
          else mem
        image_args_pass rest da' mem'
      else image_args_pass rest da mem
    else image_args_pass rest da mem

/-- One user config block of the second pass: a key still in the default
set whose value extracts to a string replaces the default (and the
memory size when the key is `m`). -/
def user_block_pass (fmt : String → String) :
    List (String × Json) → AssocS → String → AssocS × String
  | [], da, mem => (da, mem)
  | (key, value) :: restKv, da, mem =>
    match extractVal fmt [(key, value)] key with
    | some v =>
      if assocHasKey da key then
        let da' := assocSet da key v
        let mem' := if key = "m" then v else mem
        user_block_pass fmt restKv da' mem'
      else user_block_pass fmt restKv da mem
    | none => user_block_pass fmt restKv da mem

/-- The second pass over all `config.qemu_args` blocks. -/
def user_args_pass (fmt : String → String) :
    List (List (String × Json)) → AssocS → String → AssocS × String
  | [], da, mem => (da, mem)
  | block :: rest, da, mem =>
    let (da', mem') := user_block_pass fmt block da mem
    user_args_pass fmt rest da' mem'

/-- `drive_param_for`: `",".join` of `file=`, optional `format=` and
optional opts, written as the equivalent concatenation. -/
def drive_param_for (overlayPath : String) (spec : DiskSpec) : String :=
  "file=" ++ overlayPath
    ++ (if spec.format ≠ "" then ",format=" ++ spec.format else "")
    ++ (if spec.opts ≠ "" then "," ++ spec.opts else "")

/-- `parse_volume_spec` (closure inside `setup_qemu_args`). -/
def parse_volume_spec (spec : String) : Option (String × String × Bool) :=
  let parts := (splitOnColon spec.data).map (fun p => String.mk (pyStripList p))
  match parts with
  | [] => none
  | [_] => none
  | src :: dst :: rest =>
    let ro := rest.any (fun p => pyLowerStr p = "ro")
    if src = "" ∨ dst = "" then none else some (src, dst, ro)

/-- `os.path.basename`. -/
def pathBasename (s : String) : String :=
  String.mk ((s.data.reverse.takeWhile (fun c => c ≠ '/')).reverse)

/-- `volume_tag_for`. -/
def volume_tag_for (dst : String) (idx : Nat) : String :=
  let base := if pathBasename dst = "" then "vol" ++ toString idx else pathBasename dst
  let sanitized := String.mk (base.data.map
    (fun ch => if ch.isAlphanum || ch = '-' || ch = '_' then ch else '_'))
  sanitized ++ "-" ++ toString idx

/-- Inputs of one `setup_qemu_args` run. -/
structure QemuArgsInput where
  vm_name : Option String
  cpuCount : String
  network : Option String
  ports : List String
  volumes : List String
  cid : Nat
  pub_b64 : String
  fstab_b64 : String → String
  fmt : String → String
  instanceDir : String
  manifestArgs : Option (List String)
  configArgs : List (List (String × Json))
  overlays : List (String × DiskSpec)
  configInstanceSet : Bool
  discovered : List (String × DiskSpec)
  virtiofsdOk : Nat → Bool

/-- The built-in default keys, in source map order. -/
def defaults0 (cpuCount : String) : AssocS :=
  [("cpu", "max"), ("machine", "type=q35,hpet=off"), ("accel", "kvm"),
   ("m", "1G"), ("smp", cpuCount)]

/-- Default set and memory size after both override passes. -/
def finalDefaults (inp : QemuArgsInput) : AssocS × String :=
  let d0 := defaults0 inp.cpuCount
  let (da1, mem1) :=
    match inp.manifestArgs with
    | some qa => image_args_pass qa d0 "1G"
    | none => (d0, "1G")
  user_args_pass inp.fmt inp.configArgs da1 mem1

/-- `-name` section. -/
def nameSection (inp : QemuArgsInput) : List (Option String) :=
  match inp.vm_name with
  | some n => if n ≠ "" then [some "-name", some n] else []
  | none => []

/-- The hostname derived from the VM name (`None` without a name). -/
def hostnameOf (inp : QemuArgsInput) : Option String :=
  match inp.vm_name with
  | some n => if n ≠ "" then some (to_valid_hostname n) else none
  | none => none

/-- Safe-default flags, in the (insertion-ordered) remaining key order. -/
def defaultsSection (inp : QemuArgsInput) : List (Option String) :=
  ((finalDefaults inp).1).flatMap (fun p => [some ("-" ++ p.1), some p.2])

/-- Hostname SMBIOS credential section. -/
def hostnameSection (inp : QemuArgsInput) : List (Option String) :=
  match hostnameOf inp with
  | some h =>
    if h ≠ "" then
      [some "-smbios",
       some ("type=11,value=io.systemd.credential:system.hostname=" ++ h)]
    else []
  | none => []

/-- User-mode network section. -/
def networkSection (inp : QemuArgsInput) : List (Option String) :=
  if inp.network = none ∨ inp.network.map pyLowerStr = some "user" then
    let hn := match hostnameOf inp with
      | some h => if h ≠ "" then ",hostname=" ++ h else ""
      | none => ""
    [some "-netdev",
     some ("user,id=user.qemu-compose" ++ hn ++ hostfwd_segments inp.ports),
     some "-device", some "virtio-net,netdev=user.qemu-compose"]
  else []

/-- vhost-vsock device section (`if self.cid:`). -/
def cidSection (inp : QemuArgsInput) : List (Option String) :=
  if inp.cid ≠ 0 then
    [some "-device",
     some ("vhost-vsock-pci,id=vhost-vsock-pci0,guest-cid=" ++ toString inp.cid)]
  else []

/-- SSH public-key SMBIOS credential section. -/
def sshSection (inp : QemuArgsInput) : List (Option String) :=
  [some "-smbios",
   some ("type=11,value=io.systemd.credential.binary:ssh.authorized_keys.root="
         ++ inp.pub_b64)]

/-- The overlays actually used: lazily rediscovered when the list is
empty and the run targets an existing instance. -/
def effectiveOverlays (inp : QemuArgsInput) : List (String × DiskSpec) :=
  if inp.overlays.isEmpty ∧ inp.configInstanceSet then inp.discovered
  else inp.overlays

/-- `-drive` section, one entry per overlay in order. -/
def driveSection (inp : QemuArgsInput) : List (Option String) :=
  (effectiveOverlays inp).flatMap
    (fun p => [some "-drive", some (drive_param_for p.1 p.2)])

/-- Volume loop: chardev/device args and guest fstab lines for each
accepted volume, indices counting every declared volume. -/
def volumeLoop (inp : QemuArgsInput) :
    Nat → List String → List (Option String) × List String
  | _, [] => ([], [])
  | i, v :: rest =>
    let (restArgs, restFstab) := volumeLoop inp (i + 1) rest
    match parse_volume_spec v with
    | none => (restArgs, restFstab)
    | some (_, dst, ro) =>
      if inp.virtiofsdOk i then
        let tag := volume_tag_for dst i
        let sock := pathJoin inp.instanceDir ("virtiofs-" ++ tag ++ ".sock")
        ([some "-chardev",
          some ("socket,id=qcfs-char" ++ toString i ++ ",path=" ++ sock),
          some "-device",
          some ("vhost-user-fs-pci,chardev=qcfs-char" ++ toString i ++ ",tag=" ++ tag)]
          ++ restArgs,
         (tag ++ " " ++ dst ++ " virtiofs defaults" ++ (if ro then ",ro" else "")
          ++ " 0 0") :: restFstab)
      else (restArgs, restFstab)

/-- Volume section of the argument vector. -/
def volumeSection (inp : QemuArgsInput) : List (Option String) :=
  (volumeLoop inp 0 inp.volumes).1

/-- The fstab entries gathered by the volume loop. -/
def fstabEntries (inp : QemuArgsInput) : List String :=
  (volumeLoop inp 0 inp.volumes).2

/-- Shared-memory backing, NUMA binding and fstab credential — present
iff at least one volume was accepted. -/
def memSection (inp : QemuArgsInput) : List (Option String) :=
  if fstabEntries inp ≠ [] then
    [some "-object",
     some ("memory-backend-file,id=qc-mem,size=" ++ (finalDefaults inp).2
           ++ ",mem-path=/dev/shm,share=on"),
     some "-numa", some "node,memdev=qc-mem",
     some "-smbios",
     some ("type=11,value=io.systemd.credential.binary:fstab.extra="
           ++ inp.fstab_b64 (String.intercalate "\n" (fstabEntries inp)))]
  else []

/-- Manifest args appended verbatim (format-expanded; an empty argument
appends Python `None`). -/
def imageAppendSection (inp : QemuArgsInput) : List (Option String) :=
  match inp.manifestArgs with
  | some qa => qa.map (fun a => if a = "" then none else some (inp.fmt a))
  | none => []

/-- User config args appended last, skipping keys of the default set. -/
def userAppendBlock (fmt : String → String) (da : AssocS) :
    List (String × Json) → List (Option String)
  | [] => []
  | (key, value) :: restKv =>
    if assocHasKey da key then userAppendBlock fmt da restKv
    else
      some ("-" ++ key) ::
        ((match extractVal fmt [(key, value)] key with
          | some v => [some v]
          | none => []) ++ userAppendBlock fmt da restKv)

/-- All user blocks of the final append pass. -/
def userAppendSection (inp : QemuArgsInput) : List (Option String) :=
  (inp.configArgs.map (userAppendBlock inp.fmt (finalDefaults inp).1)).flatten

/-- The values a pair list supplies for one key, in order. -/
def keyPairsFor (pairs : List (String × Json)) (K : String) : List Json :=
  (pairs.filter (fun p => p.1 = K)).map Prod.snd

/-- The values the user config blocks supply for one key, in order —
the pair-level view of `config.qemu_args` that the override pass
consumes. -/
def userPairsFor (configArgs : List (List (String × Json))) (K : String) : List Json :=
  keyPairsFor configArgs.flatten K

/-- `setup_qemu_args`: the argument vector handed to `add_args`, as the
concatenation of the source's append phases in order. -/
def setup_qemu_args (inp : QemuArgsInput) : List (Option String) :=
  nameSection inp ++ defaultsSection inp ++ hostnameSection inp
    ++ networkSection inp ++ cidSection inp ++ sshSection inp
    ++ driveSection inp ++ volumeSection inp ++ memSection inp
    ++ imageAppendSection inp ++ userAppendSection inp

/-! ### jsonlisp.py : the boot-script interpreter

Values and expressions share one representation, as in the source.
`procV`/`macV` are the `Proc`/`Macro` classes; `builtin` covers the
subset of the `builtins` table that the verified programs exercise.
Every entry of the source's `builtins` table is a host function, type or
lambda and so carries a `__name__` attribute; `Proc`/`Macro` instances
and plain data do not, which matters because `interp` formats
`f.__name__` / `proc.__name__` into a log line before calling (an
`AttributeError` path modelled below). Python's environments are
`ChainMap`s mutated in place; the embedding threads the scope chain
through interpretation, which coincides with the source's behaviour for
programs that do not mutate a captured outer scope after closing over
it. -/

inductive BName where
  | mul | add | sub | lt | le | gt | ge | bnot
  | beginB | cons | head | tail | len | listB
deriving DecidableEq, Repr

inductive Value where
  | null
  | bool (b : Bool)
  | int (n : Int)
  | str (s : String)
  | list (xs : List Value)
  | dict (kvs : List (String × Value))
  | builtin (b : BName)
  | procV (params : Value) (body : Value) (env : List (List (String × Value)))
  | macV (params : Value) (body : Value) (env : List (List (String × Value)))
deriving Repr

/-- A scope chain: list of frames, innermost first. -/
abbrev EnvT : Type := List (List (String × Value))

/-- Interpreter-level Python exceptions (plus fuel exhaustion, the
embedding's device for the untyped recursion of the source). -/
inductive IErr where
  | keyError
  | typeError
  | valueError
  | indexError
  | attributeError
  | fuel
deriving DecidableEq, Repr

/-- Python truthiness of an interpreter value. -/
def Value.truthy : Value → Bool
  | .null => false
  | .bool b => b
  | .int n => n != 0
  | .str s => s ≠ ""
  | .list xs => !xs.isEmpty
  | .dict kvs => !kvs.isEmpty
  | .builtin _ => true
  | .procV _ _ _ => true
  | .macV _ _ _ => true

def frameLookup : List (String × Value) → String → Option Value
  | [], _ => none
  | (k, v) :: rest, key => if k = key then some v else frameLookup rest key

/-- `d[key] = v` on one frame: update in place or append. -/
def frameSet : List (String × Value) → String → Value → List (String × Value)
  | [], k, v => [(k, v)]
  | (k', v') :: rest, k, v =>
    if k' = k then (k, v) :: rest else (k', v') :: frameSet rest k v

/-- `ChainMap` lookup: the first frame holding the key wins. -/
def envLookup : EnvT → String → Option Value
  | [], _ => none
  | frame :: rest, key =>
    match frameLookup frame key with
    | some v => some v
    | none => envLookup rest key

/-- `env[var] = val`: assignment targets the first frame. -/
def envSet : EnvT → String → Value → EnvT
  | [], k, v => [[(k, v)]]
  | frame :: rest, k, v => frameSet frame k v :: rest

/-- Is a value a list or an object (the shapes the one-key shortcut
interprets before wrapping)? -/
def isCompound : Value → Bool
  | .list _ => true
  | .dict _ => true
  | _ => false

/-- `x[0] == lit` for the special-form dispatch. -/
def headIs (x0 : Value) (lit : String) : Bool :=
  match x0 with
  | .str t => t = lit
  | _ => false

/-- Formal parameter list of a `Proc`/`Macro`: a list of symbols. -/
def paramNames : Value → Except IErr (List String)
  | .list xs => xs.mapM (fun v =>
      match v with
      | Value.str s => Except.ok s
      | _ => Except.error IErr.typeError)
  | _ => Except.error IErr.typeError

/-- `operator.add` on the value shapes the engine uses. -/
def pyAdd : Value → Value → Except IErr Value
  | .int a, .int b => Except.ok (.int (a + b))
  | .str a, .str b => Except.ok (.str (a ++ b))
  | .list a, .list b => Except.ok (.list (a ++ b))
  | _, _ => Except.error IErr.typeError

/-- The modelled builtins (`*  +  -  <  <=  >  >=  not  begin  cons
head  tail  len  list` from the source's `builtins` table). -/
def applyBuiltin : BName → List Value → Except IErr Value
  | .add, [a, b] => pyAdd a b
  | .mul, [.int a, .int b] => Except.ok (.int (a * b))
  | .sub, [.int a, .int b] => Except.ok (.int (a - b))
  | .lt, [.int a, .int b] => Except.ok (.bool (a < b))
  | .le, [.int a, .int b] => Except.ok (.bool (a ≤ b))
  | .gt, [.int a, .int b] => Except.ok (.bool (b < a))
  | .ge, [.int a, .int b] => Except.ok (.bool (b ≤ a))
  | .bnot, [a] => Except.ok (.bool (!a.truthy))
  | .beginB, xs =>
    match xs.getLast? with
    | some v => Except.ok v
    | none => Except.error IErr.indexError
  | .cons, [a, .list ys] => Except.ok (.list (a :: ys))
  | .head, [.list (a :: _)] => Except.ok a
  | .head, [.list []] => Except.error IErr.indexError
  | .head, [.str s] =>
    match s.data with
    | c :: _ => Except.ok (.str (String.mk [c]))
    | [] => Except.error IErr.indexError
  | .tail, [.list xs] => Except.ok (.list (xs.drop 1))
  | .tail, [.str s] => Except.ok (.str (strDropChars s 1))
  | .len, [.list xs] => Except.ok (.int xs.length)
  | .len, [.str s] => Except.ok (.int s.length)
  | .len, [.dict kvs] => Except.ok (.int kvs.length)
  | .listB, xs => Except.ok (.list xs)
  | _, _ => Except.error IErr.typeError

mutual

/-- `jsonlisp.interp`, fuel-indexed; the environment threads through to
model in-place scope mutation (`def`). Before either call site the
source formats the callee's `__name__` into a `CALL_STEP` log line:
in the one-key shortcut unconditionally, and in the list form whenever
the evaluated head is callable and the head expression is not the
literal symbol `"begin"`. Only `builtin` values carry `__name__`, so
those accesses raise `AttributeError` for `Proc`/`Macro` bindings (and
for plain data in the shortcut, where the access precedes the call). -/
def interp : Nat → Value → EnvT → Except IErr (Value × EnvT)
  | 0, _, _ => Except.error IErr.fuel
  | Nat.succ fuel, x, env =>
    match x with
    | .dict [(k, v0)] => do
      let (v1, env1) ←
        match v0 with
        | .list _ => interp fuel v0 env
        | .dict _ => interp fuel v0 env
        | w => Except.ok (w, env)
      let args := match v1 with
        | .list xs => xs
        | w => [w]
      match envLookup env1 k with
      | some (Value.builtin b) => applyCallable fuel (Value.builtin b) args env1
      | some _ => Except.error IErr.attributeError
      | none => Except.error IErr.keyError
    | .str s =>
      if strStartsWith s "key_" ∧ s.length = 5 then Except.ok (.str (strDropChars s 4), env)
      else
        match envLookup env s with
        | some v => Except.ok (v, env)
        | none => Except.error IErr.keyError
    | .list [] => Except.ok (.list [], env)
    | .list (x0 :: rest) =>
      if headIs x0 "quote" || headIs x0 "'" then
        match rest with
        | [e] => Except.ok (e, env)
        | _ => Except.error IErr.valueError
      else if headIs x0 "flat_quote" || headIs x0 "_'" then
        Except.ok (.list rest, env)
      else if headIs x0 "if" then
        match rest with
        | [t, c, a] => do
          let (tv, env1) ← interp fuel t env
          if tv.truthy then interp fuel c env1 else interp fuel a env1
        | _ => Except.error IErr.valueError
      else if headIs x0 "def" then
        match rest with
        | [Value.str name, ex] => do
          let (val, env1) ← interp fuel ex env
          Except.ok (val, envSet env1 name val)
        | [_, _] => Except.error IErr.typeError
        | _ => Except.error IErr.valueError
      else if headIs x0 "lambda" then
        match rest with
        | [params, body] => Except.ok (.procV params body env, env)
        | _ => Except.error IErr.valueError
      else if headIs x0 "macro" then
        match rest with
        | [params, body] => Except.ok (.macV params body env, env)
        | _ => Except.error IErr.valueError
      else do
        let (proc, env1) ← interp fuel x0 env
        match proc with
        | .macV params body penv => do
          let ps ← paramNames params
          let statEnv : EnvT := List.zip ps rest :: penv
          let (exp, _) ← interp fuel body statEnv
          interp fuel exp env1
        | p => do
          let (argVals, env2) ← interpList fuel rest env1
          match p with
          | Value.procV params body penv =>
            if headIs x0 "begin" then
              applyCallable fuel (Value.procV params body penv) argVals env2
            else Except.error IErr.attributeError
          | q => applyCallable fuel q argVals env2
    | w => Except.ok (w, env)

/-- Left-to-right evaluation of call arguments. -/
def interpList : Nat → List Value → EnvT → Except IErr (List Value × EnvT)
  | 0, _, _ => Except.error IErr.fuel
  | Nat.succ _, [], env => Except.ok ([], env)
  | Nat.succ fuel, a :: rest, env => do
    let (v, env1) ← interp fuel a env
    let (vs, env2) ← interpList fuel rest env1
    Except.ok (v :: vs, env2)

/-- `f(*v)`: apply a builtin or a `Proc`; anything else (including a
`Macro`, which has no `__call__`) raises `TypeError`. -/
def applyCallable : Nat → Value → List Value → EnvT → Except IErr (Value × EnvT)
  | 0, _, _, _ => Except.error IErr.fuel
  | Nat.succ _, .builtin b, args, env => do
    let r ← applyBuiltin b args
    Except.ok (r, env)
  | Nat.succ fuel, .procV params body penv, args, env => do
    let ps ← paramNames params
    let callEnv : EnvT := List.zip ps args :: penv
    let (r, _) ← interp fuel body callEnv
    Except.ok (r, env)
  | Nat.succ _, _, _, _ => Except.error IErr.typeError

end

/-- The builtins dict restricted to the modelled subset, followed by
the `key_*` constants, in the source's insertion order. -/
def frame0 : List (String × Value) :=
  [("*", .builtin .mul), ("+", .builtin .add), ("-", .builtin .sub),
   ("<", .builtin .lt), ("<=", .builtin .le), (">", .builtin .gt),
   (">=", .builtin .ge), ("not", .builtin .bnot), ("begin", .builtin .beginB),
   ("cons", .builtin .cons), ("head", .builtin .head), ("len", .builtin .len),
   ("list", .builtin .listB), ("tail", .builtin .tail),
   ("key_up", .str "\x1b[A"), ("key_down", .str "\x1b[B"),
   ("key_right", .str "\x1b[C"), ("key_left", .str "\x1b[D"),
   ("key_home", .str "\x1b[H"), ("key_end", .str "\x1b[F"),
   ("key_ctrl_space", .str "\x00"), ("key_escape", .str "\x1b"),
   ("key_tab", .str "\t"), ("key_enter", .str "\n"),
   ("key_backspace", .str "\x7f")]

/-- `std_lib`'s `defmacro` definition, as a value literal. -/
def stdLibDefmacro : Value :=
  .list [.str "def", .str "defmacro",
    .list [.str "macro", .list [.str "name", .str "params", .str "body"],
      .list [.str "list", .list [.str "quote", .str "def"], .str "name",
        .list [.str "list", .list [.str "quote", .str "macro"],
          .str "params", .str "body"]]]]

/-- `std_lib`'s `defproc` definition, as a value literal. -/
def stdLibDefproc : Value :=
  .list [.str "defmacro", .str "defproc",
    .list [.str "name", .str "params", .str "body"],
    .list [.str "list", .list [.str "quote", .str "def"], .str "name",
      .list [.str "list", .list [.str "quote", .str "lambda"],
        .str "params", .str "body"]]]

def stdLib : Value := .list [.str "list", stdLibDefmacro, stdLibDefproc]

/-- `default_env()`: the builtins/key frame after interpreting the
standard prelude. -/
def defaultEnv : EnvT :=
  match interp 64 stdLib [frame0] with
  | Except.ok (_, e) => e
  | Except.error _ => [frame0]

/-- Value part of an interpretation. -/
def interpVal (fuel : Nat) (x : Value) (env : EnvT) : Except IErr Value :=
  (interp fuel x env).map Prod.fst

/-- The claim's reading of the one-key shortcut, for comparison with
`interp`: wrap the value in a singleton list when it is not already a
list, evaluate the elements left-to-right, apply the binding. -/
def specOneKeyCall (fuel : Nat) (k : String) (v : Value) (env : EnvT) :
    Except IErr (Value × EnvT) := do
  let wrapped := match v with
    | Value.list xs => xs
    | w => [w]
  let (args, env1) ← interpList fuel wrapped env
  match envLookup env1 k with
  | some f => applyCallable fuel f args env1
  | none => Except.error IErr.keyError

/-- `["begin", ["def","x",2], ["+","x",3]]`. -/
def beginProg : Value :=
  .list [.str "begin", .list [.str "def", .str "x", .int 2],
    .list [.str "+", .str "x", .int 3]]

/-! ## Theorems -/

/-! ### C10 : `QemuConfig.from_dict` and the `instance` field -/

/-- C10: for every input dictionary `d`, `QemuConfig.from_dict d` has
`instance = None` — even when `d` carries an `"instance"` key — so the
`from_dict ∘ to_dict` round trip never preserves a non-None `instance`
and a persisted `qemu_config.json` cannot re-select an instance by
itself. -/
theorem c10_from_dict_instance_none :
    (∀ d : List (String × Json), (QemuConfig.from_dict d).instanceField = Json.null)
    ∧ (QemuConfig.from_dict [("instance", Json.str "abc123")]).instanceField = Json.null
    ∧ (∀ c : QemuConfig,
        (QemuConfig.from_dict (QemuConfig.to_dict c)).instanceField = Json.null) :=
  ⟨fun _ => rfl, rfl, fun _ => rfl⟩

/-! ### C6 : RepoTag round trip -/

theorem splitAtFirstColon_of_not_mem :
    ∀ l : List Char, ':' ∉ l → splitAtFirstColon l = none := by
  intro l h
  induction l with
  | nil => rfl
  | cons c rest ih =>
    have hc : c ≠ ':' := fun hc => h (hc ▸ List.mem_cons_self c rest)
    have hrest : ':' ∉ rest := fun hr => h (List.mem_cons_of_mem c hr)
    simp [splitAtFirstColon, hc, ih hrest]

theorem splitAtFirstColon_append :
    ∀ l rest : List Char, ':' ∉ l →
      splitAtFirstColon (l ++ ':' :: rest) = some (l, rest) := by
  intro l rest h
  induction l with
  | nil => simp [splitAtFirstColon]
  | cons c tl ih =>
    have hc : c ≠ ':' := fun hc => h (hc ▸ List.mem_cons_self c tl)
    have htl : ':' ∉ tl := fun hr => h (List.mem_cons_of_mem c hr)
    simp [splitAtFirstColon, hc, ih htl]

/-- C6 counterexample: the round trip fails as soon as the repo itself
contains a colon — `from_str (format {repo := "a:b", tag := "c"})`
re-splits at the first colon and yields `{repo := "a", tag := "b:c"}`. -/
theorem c6_counterexample :
    RepoTag.from_str (RepoTag.formatStr ⟨"a:b", "c"⟩) ≠ RepoTag.mk "a:b" "c" := by
  decide

/-- C6 (amended): parsing `"r:t"` returns `{r, t}` for every repo `r`
that contains no colon (and any tag), and parsing a colon-free bare
string `r` yields `{r, "latest"}`; when the repo contains a colon the
round trip fails. -/
theorem c6_repo_tag_roundtrip :
    (∀ r t : String, ':' ∉ r.data →
        RepoTag.from_str (RepoTag.formatStr ⟨r, t⟩) = ⟨r, t⟩)
    ∧ (∀ r : String, ':' ∉ r.data → RepoTag.from_str r = ⟨r, "latest"⟩) := by
  constructor
  · intro r t h
    have hdata : (RepoTag.formatStr ⟨r, t⟩).data = r.data ++ ':' :: t.data := by
      simp [RepoTag.formatStr, String.data_append]
    simp [RepoTag.from_str, hdata, splitAtFirstColon_append r.data t.data h]
  · intro r h
    simp [RepoTag.from_str, splitAtFirstColon_of_not_mem r.data h]

/-- C6 witness: the amended theorem applied to the concrete colon-free
inputs of the claim. -/
theorem c6_repo_tag_roundtrip_witness :
    RepoTag.from_str (RepoTag.formatStr ⟨"foo", "latest"⟩) = ⟨"foo", "latest"⟩
    ∧ RepoTag.from_str "r" = ⟨"r", "latest"⟩ :=
  ⟨c6_repo_tag_roundtrip.1 "foo" "latest" (by decide),
   c6_repo_tag_roundtrip.2 "r" (by decide)⟩

/-! ### C7 : port-forward synthesis -/

/-- C7 counterexample: `"8080:80/xyz"` does not match the claimed
grammar (its protocol suffix is neither `tcp` nor `udp`), yet it
contributes a hostfwd fragment — the code silently coerces the unknown
protocol to `tcp` instead of skipping the spec. -/
theorem c7_counterexample :
    hostfwd_segments ["8080:80/xyz"] ≠ "" := by
  decide

theorem hostfwd_segments_single_none {spec : String}
    (h : parse_port_spec spec = none) : hostfwd_segments [spec] = "" := by
  simp [hostfwd_segments, h, String.join]

theorem hostfwd_segments_single_some {spec : String}
    {item : String × String × String × String}
    (h : parse_port_spec spec = some item) :
    hostfwd_segments [spec] = format_hostfwd item := by
  have : ("" : String) ++ format_hostfwd item = format_hostfwd item := by
    cases hfi : format_hostfwd item
    rfl
  simp [hostfwd_segments, h, String.join, this]

theorem parse_port_spec_proto {spec : String}
    {item : String × String × String × String}
    (h : parse_port_spec spec = some item) :
    item.1 = "tcp" ∨ item.1 = "udp" := by
  unfold parse_port_spec at h
  set proto0 :=
    (if (partitionSlash spec.data).2.1 then
      let p := pyLowerStr (String.mk (pyStripList (partitionSlash spec.data).2.2))
      if p = "" then "tcp" else p
    else "tcp") with hproto0
  by_cases hc : proto0 = "tcp" ∨ proto0 = "udp"
  · simp only [hc, if_pos] at h
    split at h
    · cases h; exact hc
    · cases h; exact hc
    · cases h
  · simp only [hc, if_neg, if_false] at h
    split at h
    · cases h; exact Or.inl rfl
    · cases h; exact Or.inl rfl
    · cases h

/-- C7 (amended): a spec whose body has two or three colon-separated
segments yields exactly one hostfwd fragment — an unknown `/proto`
suffix is coerced to `tcp` rather than rejected — and a spec with any
other segment count contributes nothing; the claim's three concrete
examples hold. -/
theorem c7_port_spec :
    (∀ spec, parse_port_spec spec = none → hostfwd_segments [spec] = "")
    ∧ (∀ spec item, parse_port_spec spec = some item →
        hostfwd_segments [spec] = format_hostfwd item
          ∧ (item.1 = "tcp" ∨ item.1 = "udp"))
    ∧ hostfwd_segments ["127.0.0.1:2222:22/tcp"] = ",hostfwd=tcp:127.0.0.1:2222-:22"
    ∧ hostfwd_segments ["8080:80"] = ",hostfwd=tcp::8080-:80"
    ∧ hostfwd_segments ["bad"] = ""
    ∧ hostfwd_segments ["8080:80/xyz"] = ",hostfwd=tcp::8080-:80" := by
  refine ⟨fun spec h => hostfwd_segments_single_none h,
    fun spec item h => ⟨hostfwd_segments_single_some h, parse_port_spec_proto h⟩,
    by decide, by decide, by decide, by decide⟩

/-- C7 witness: the amended theorem applied to concrete specs. -/
theorem c7_port_spec_witness :
    hostfwd_segments ["bad"] = ""
    ∧ (hostfwd_segments ["8080:80"] = format_hostfwd ("tcp", "", "8080", "80")
        ∧ (("tcp", "", "8080", "80").1 = "tcp" ∨ ("tcp", "", "8080", "80").1 = "udp")) :=
  ⟨c7_port_spec.1 "bad" (by decide),
   c7_port_spec.2.1 "8080:80" ("tcp", "", "8080", "80") (by decide)⟩

/-! ### C3 : command_start config merge -/

/-- C3: with an identifier that resolves to an existing instance and a
CLI config document, the run never reaches the merge: the source line
`config.instance = vmid` mutates a frozen dataclass and raises
`FrozenInstanceError` (and with no CLI document the same line raises
`NameError`, `config` being unbound). -/
theorem c3_start_merge_raises :
    command_start_model [("abc123456789", some "vm1")] (some "vm1")
        (some [("name", Json.str "vm1")])
      = Except.error PyErr.frozenInstanceError
    ∧ command_start_model [("abc123456789", some "vm1")] (some "vm1") (some [])
      = Except.error PyErr.frozenInstanceError
    ∧ command_start_model [("abc123456789", some "vm1")] (some "abc123456789") none
      = Except.error PyErr.nameError := by
  refine ⟨rfl, rfl, rfl⟩

/-! ### C1 : guest-CID allocation -/

theorem cid_loop_ok_charac (ioctl : Nat → IoctlRes) :
    ∀ n start c, 0x100000000 - start ≤ n →
      cid_loop ioctl start = Except.ok (some c) →
      ioctl c = IoctlRes.ok ∧ start ≤ c ∧ c ≤ 0xFFFFFFFF ∧
        ∀ k, start ≤ k → k < c → ioctl k = IoctlRes.busy := by
  intro n
  induction n with
  | zero =>
    intro start c hn h
    have hs : ¬ start ≤ 0xFFFFFFFF := by omega
    rw [cid_loop] at h
    simp [hs] at h
  | succ n ih =>
    intro start c hn h
    rw [cid_loop] at h
    by_cases hs : start ≤ 0xFFFFFFFF
    · simp only [hs, dif_pos] at h
      cases hio : ioctl start with
      | ok =>
        rw [hio] at h
        have hc : start = c := by
          injection h with h1
          injection h1
        subst hc
        exact ⟨hio, Nat.le_refl _, hs, fun k hk1 hk2 => absurd hk2 (by omega)⟩
      | busy =>
        rw [hio] at h
        have := ih (start + 1) c (by omega) h
        refine ⟨this.1, by omega, this.2.2.1, fun k hk1 hk2 => ?_⟩
        rcases Nat.eq_or_lt_of_le hk1 with heq | hlt
        · exact heq ▸ hio
        · exact this.2.2.2 k hlt hk2
      | err =>
        rw [hio] at h
        cases h
    · simp [hs] at h

theorem cid_loop_err_charac (ioctl : Nat → IoctlRes) :
    ∀ n start k, 0x100000000 - start ≤ n → start ≤ k → k ≤ 0xFFFFFFFF →
      ioctl k = IoctlRes.err →
      (∀ j, start ≤ j → j < k → ioctl j = IoctlRes.busy) →
      cid_loop ioctl start = Except.error () := by
  intro n
  induction n with
  | zero => intro start k hn hk1 hk2 _ _; omega
  | succ n ih =>
    intro start k hn hk1 hk2 herr hall
    have hs : start ≤ 0xFFFFFFFF := by omega
    rw [cid_loop]
    simp only [hs, dif_pos]
    by_cases he : start = k
    · subst he
      rw [herr]
    · have hlt : start < k := Nat.lt_of_le_of_ne hk1 he
      rw [hall start (Nat.le_refl _) hlt]
      exact ih (start + 1) k (by omega) (by omega) hk2 herr
        (fun j hj1 hj2 => hall j (by omega) hj2)

/-- C1 counterexample: with a device that opens and an ioctl accepting
the very first candidate, the function returns CID 1000 — but the
control-device handle is already closed when it returns (the
`try/finally` closes it on every path), contradicting the claim that
the handle stays open until session cleanup. -/
theorem c1_counterexample :
    (get_available_guest_cid true (fun _ => IoctlRes.ok) 1000).value
        = Except.ok (some 1000)
    ∧ ¬ (get_available_guest_cid true (fun _ => IoctlRes.ok) 1000).fdOpen = true := by
  constructor
  · show cid_loop (fun _ => IoctlRes.ok) 1000 = Except.ok (some 1000)
    rw [cid_loop]
    norm_num
  · simp [get_available_guest_cid]

/-- C1 (amended): the returned CID is the first candidate from the
start value that the "set guest CID" ioctl accepts — `EADDRINUSE`
advances to the next candidate, any other error propagates — but the
control-device handle is closed before the function returns (the
`finally` clause), on the success, exhaustion and error paths alike, so
the function itself keeps nothing reserved. -/
theorem c1_cid_allocation :
    (∀ deviceOpens ioctl start,
        (get_available_guest_cid deviceOpens ioctl start).fdOpen = false)
    ∧ (∀ ioctl start c,
        (get_available_guest_cid true ioctl start).value = Except.ok (some c) →
        ioctl c = IoctlRes.ok ∧ start ≤ c ∧ c ≤ 0xFFFFFFFF ∧
          ∀ k, start ≤ k → k < c → ioctl k = IoctlRes.busy)
    ∧ (∀ ioctl start k, start ≤ k → k ≤ 0xFFFFFFFF → ioctl k = IoctlRes.err →
        (∀ j, start ≤ j → j < k → ioctl j = IoctlRes.busy) →
        (get_available_guest_cid true ioctl start).value = Except.error ()) := by
  refine ⟨?_, ?_, ?_⟩
  · intro deviceOpens ioctl start
    by_cases hd : deviceOpens = true <;> simp [get_available_guest_cid, hd]
  · intro ioctl start c h
    have h' : cid_loop ioctl start = Except.ok (some c) := h
    exact cid_loop_ok_charac ioctl (0x100000000 - start) start c (Nat.le_refl _) h'
  · intro ioctl start k hk1 hk2 herr hall
    show cid_loop ioctl start = Except.error ()
    exact cid_loop_err_charac ioctl (0x100000000 - start) start k (Nat.le_refl _)
      hk1 hk2 herr hall

/-- C1 witness: the amended theorem applied to an ioctl that reports
1000 busy and accepts 1001. -/
theorem c1_cid_allocation_witness :
    (fun k => if k ≤ 1000 then IoctlRes.busy else IoctlRes.ok) 1001 = IoctlRes.ok
    ∧ 1000 ≤ 1001 ∧ 1001 ≤ 0xFFFFFFFF
    ∧ ∀ k, 1000 ≤ k → k < 1001 →
        (fun k => if k ≤ 1000 then IoctlRes.busy else IoctlRes.ok) k = IoctlRes.busy := by
  apply c1_cid_allocation.2.1
    (fun k => if k ≤ 1000 then IoctlRes.busy else IoctlRes.ok) 1000 1001
  show cid_loop (fun k => if k ≤ 1000 then IoctlRes.busy else IoctlRes.ok) 1000
      = Except.ok (some 1001)
  rw [cid_loop]
  norm_num
  rw [cid_loop]
  norm_num

/-! ### C4 : image resolution -/

/-- C4: `resolve_image` tries exact `repo[:tag]` name first, then exact
id, then unique id-prefix; a name match or a unique id match yields
`(id, [id])`, two or more prefix-sharing ids with no name match yield
`(nil, candidates)`; the claim's two concrete scenarios hold. -/
theorem c4_resolve_image :
    (∀ (store : ImageStore) token m,
        load_image_by_name store token = Except.ok (some m) →
        resolve_image store token = Except.ok (some m.id, [m.id]))
    ∧ (∀ (store : ImageStore) token,
        load_image_by_name store token = Except.ok none →
        token ∈ list_subdirs store →
        resolve_image store token = Except.ok (some token, [token]))
    ∧ (∀ (store : ImageStore) token i,
        load_image_by_name store token = Except.ok none →
        token ∉ list_subdirs store →
        (list_subdirs store).filter (fun x => strIsPrefixOf token x) = [i] →
        resolve_image store token = Except.ok (some i, [i]))
    ∧ (∀ (store : ImageStore) token a b rest,
        load_image_by_name store token = Except.ok none →
        token ∉ list_subdirs store →
        (list_subdirs store).filter (fun x => strIsPrefixOf token x) = a :: b :: rest →
        resolve_image store token = Except.ok (none, a :: b :: rest))
    ∧ resolve_image
        [("abc1", some (Json.obj [("id", Json.str "abc1")])),
         ("abc2", some (Json.obj [("id", Json.str "abc2")]))] "abc"
      = Except.ok (none, ["abc1", "abc2"])
    ∧ resolve_image
        [("abc1", some (Json.obj [("id", Json.str "abc1"),
            ("repo_tags", Json.arr [Json.str "foo:latest"])])),
         ("abc2", some (Json.obj [("id", Json.str "abc2")]))] "foo"
      = Except.ok (some "abc1", ["abc1"]) := by
  refine ⟨?_, ?_, ?_, ?_, by rfl, by rfl⟩
  · intro store token m h
    simp only [resolve_image, h]
    rfl
  · intro store token h hmem
    simp only [resolve_image, h]
    show Except.ok (resolve_image_by_pfx store token) = _
    simp [resolve_image_by_pfx, hmem]
  · intro store token i h hmem hfilter
    simp only [resolve_image, h]
    show Except.ok (resolve_image_by_pfx store token) = _
    simp [resolve_image_by_pfx, hmem, hfilter]
  · intro store token a b rest h hmem hfilter
    simp only [resolve_image, h]
    show Except.ok (resolve_image_by_pfx store token) = _
    simp [resolve_image_by_pfx, hmem, hfilter]

/-- C4 witness: the name-match branch of the theorem on the claim's
name-wins-over-prefix store. -/
theorem c4_resolve_image_witness :
    resolve_image
        [("abc1", some (Json.obj [("id", Json.str "abc1"),
            ("repo_tags", Json.arr [Json.str "foo:latest"])])),
         ("abc2", some (Json.obj [("id", Json.str "abc2")]))] "foo"
      = Except.ok (some "abc1", ["abc1"]) := by
  exact c4_resolve_image.1
    [("abc1", some (Json.obj [("id", Json.str "abc1"),
        ("repo_tags", Json.arr [Json.str "foo:latest"])])),
     ("abc2", some (Json.obj [("id", Json.str "abc2")]))] "foo"
    { id := "abc1", architecture := "", os := "", created := Json.null,
      repo_tags := [RepoTag.mk "foo" "latest"], disks := [], qemu_args := [],
      digest := "", comment := none } (by rfl)

/-! ### C9 : image listing -/

/-- C9 counterexample: a store whose second subdirectory has an
unreadable or unparseable `manifest.json` makes `list_image` raise —
the exception escapes and no rows are returned, where the claim says
the bad entry is skipped silently and the good row still comes back. -/
theorem c9_counterexample :
    list_image (fun _ => "t") (fun _ => "s") (fun _ => 0) "/img"
        [("img1", some (Json.obj [("id", Json.str "img1"),
            ("repo_tags", Json.arr [Json.str "a:b"])])),
         ("img2", none)]
      = Except.error () := by
  rfl

theorem rows_for_image_error {age : Json → String} {size : Nat → String}
    {fs : String → Nat} {root id : String} {mj : Option Json}
    (h : loadFile mj = Except.error ()) :
    rows_for_image age size fs root id mj = Except.error () := by
  simp only [rows_for_image, h]
  rfl

/-- C9 (amended): `list_image` parses every subdirectory's
`manifest.json`; malformed entries inside a parsed manifest (a
non-string repo tag, a non-array disk) are skipped field by field, but
a manifest that is missing or fails to parse raises, the exception
propagates out of `list_image`, and rows come back only when every
manifest parses. -/
theorem c9_list_image :
    (∀ (age : Json → String) (size : Nat → String) (fs : String → Nat)
        (root : String) (store : ImageStore),
        (∀ p ∈ store, ∃ m, loadFile p.2 = Except.ok m) →
        ∃ rows, list_image age size fs root store = Except.ok rows)
    ∧ (∀ (age : Json → String) (size : Nat → String) (fs : String → Nat)
        (root : String) (store : ImageStore) entry,
        entry ∈ store → loadFile entry.2 = Except.error () →
        list_image age size fs root store = Except.error ())
    ∧ ImageManifest.from_dict (Json.obj [("id", Json.str "x"),
        ("repo_tags", Json.arr [Json.num 5, Json.str "a:b"]),
        ("disks", Json.arr [Json.str "notalist", Json.arr [Json.str "d.qcow2"]])])
      = Except.ok
          { id := "x", architecture := "", os := "", created := Json.null,
            repo_tags := [⟨"a", "b"⟩], disks := [⟨"d.qcow2", "qcow2", ""⟩],
            qemu_args := [], digest := "", comment := none } := by
  refine ⟨?_, ?_, by rfl⟩
  · intro age size fs root store hall
    induction store with
    | nil => exact ⟨[], rfl⟩
    | cons p rest ih =>
      obtain ⟨m, hm⟩ := hall p (List.mem_cons_self _ _)
      obtain ⟨rows, hrows⟩ := ih (fun q hq => hall q (List.mem_cons_of_mem _ hq))
      obtain ⟨pid, pmj⟩ := p
      refine ⟨(m.repo_tags.map (fun rt =>
          ((if rt.repo = "" then "<none>" else rt.repo),
           (if rt.tag = "" then "<none>" else rt.tag),
           short_image_id m.digest, age m.created,
           size (size_from_manifest fs (pathJoin root pid) m)))) ++ rows, ?_⟩
      simp only [list_image, rows_for_image, hm, hrows]
      rfl
  · intro age size fs root store entry hmem herr
    induction store with
    | nil => cases hmem
    | cons p rest ih =>
      rcases List.mem_cons.mp hmem with hEq | hmem'
      · subst hEq
        obtain ⟨pid, pmj⟩ := entry
        simp only [list_image]
        rw [rows_for_image_error herr]
        rfl
      · obtain ⟨pid, pmj⟩ := p
        simp only [list_image]
        cases hh : rows_for_image age size fs root pid pmj with
        | error e => cases e; rfl
        | ok rows0 =>
          rw [ih hmem']
          rfl

/-- C9 witness: the propagation branch of the theorem on a one-entry
store with an unparseable manifest. -/
theorem c9_list_image_witness :
    list_image (fun _ => "t") (fun _ => "s") (fun _ => 0) "/img" [("bad", none)]
      = Except.error () :=
  c9_list_image.2.1 (fun _ => "t") (fun _ => "s") (fun _ => 0) "/img"
    [("bad", none)] ("bad", none) (List.mem_cons_self _ _) rfl

/-! ### C8 : the boot-script interpreter -/

/-- The one-key shortcut on a scalar value, unfolded: the scalar is
passed unevaluated and wrapped in a singleton argument list, and the
binding is called only when it is a host builtin (the eager
`f.__name__` log access raises `AttributeError` otherwise). -/
theorem dict_shortcut_scalar (fuel : Nat) (k : String) (env : EnvT)
    (v0 : Value) (hs : isCompound v0 = false) :
    interp (fuel + 1) (Value.dict [(k, v0)]) env
      = (match envLookup env k with
         | some (Value.builtin b) => applyCallable fuel (Value.builtin b) [v0] env
         | some _ => Except.error IErr.attributeError
         | none => Except.error IErr.keyError) := by
  cases v0 <;> first
    | rfl
    | simp [isCompound] at hs

/-- C8 counterexample: under the claim's reading of the one-key
shortcut, `{"list": [1, 2]}` would evaluate the two elements and apply
`list`, producing `[1, 2]` — the code instead interprets the value
`[1, 2]` as a single expression, tries to call `1`, and raises
`TypeError`. -/
theorem c8_counterexample :
    interpVal 64 (Value.dict [("list", Value.list [Value.int 1, Value.int 2])])
        defaultEnv
      = Except.error IErr.typeError
    ∧ (specOneKeyCall 64 "list" (Value.list [Value.int 1, Value.int 2])
          defaultEnv).map Prod.fst
      = Except.ok (Value.list [Value.int 1, Value.int 2]) :=
  ⟨rfl, rfl⟩

/-- C8 (amended): in the default environment the program
`["begin", ["def","x",2], ["+","x",3]]` evaluates to 5; a one-key
object is a call in which a list- or object-shaped value is first
interpreted as a single expression and the result is wrapped in a
singleton list when it is not a list, while a scalar value is passed
unevaluated as the single argument — but the shortcut formats the
binding's `__name__` into a log line before calling, so the call
proceeds only when the binding is a host builtin; a binding holding an
interpreter-defined proc (or macro, or plain data) raises
`AttributeError` before any call. In particular
`{"write": "hello\n"}` applies the host `write` binding to
`"hello\n"`. -/
theorem c8_interpreter :
    interpVal 64 beginProg defaultEnv = Except.ok (Value.int 5)
    ∧ (∀ (fuel : Nat) (k : String) (v0 : Value) (env : EnvT) (b : BName),
        isCompound v0 = false → envLookup env k = some (Value.builtin b) →
        interp (fuel + 1) (Value.dict [(k, v0)]) env
          = applyCallable fuel (Value.builtin b) [v0] env)
    ∧ (∀ (fuel : Nat) (k : String) (v0 : Value) (env : EnvT) (f : Value),
        isCompound v0 = false → envLookup env k = some f →
        (∀ b : BName, f ≠ Value.builtin b) →
        interp (fuel + 1) (Value.dict [(k, v0)]) env
          = Except.error IErr.attributeError)
    ∧ (∀ (fuel : Nat) (k : String) (v0 : Value) (env : EnvT),
        isCompound v0 = true →
        interp (fuel + 1) (Value.dict [(k, v0)]) env =
          (do
            let r ← interp fuel v0 env
            let args := match r.1 with
              | Value.list xs => xs
              | w => [w]
            match envLookup r.2 k with
            | some (Value.builtin b) => applyCallable fuel (Value.builtin b) args r.2
            | some _ => Except.error IErr.attributeError
            | none => Except.error IErr.keyError))
    ∧ (∀ (fuel : Nat) (env : EnvT) (b : BName),
        envLookup env "write" = some (Value.builtin b) →
        interp (fuel + 1) (Value.dict [("write", Value.str "hello\n")]) env
          = applyCallable fuel (Value.builtin b) [Value.str "hello\n"] env) := by
  refine ⟨rfl, ?_, ?_, ?_, ?_⟩
  · intro fuel k v0 env b hscalar hf
    rw [dict_shortcut_scalar fuel k env v0 hscalar, hf]
  · intro fuel k v0 env f hscalar hf hnb
    rw [dict_shortcut_scalar fuel k env v0 hscalar, hf]
    cases f <;> first
      | rfl
      | exact absurd rfl (hnb _)
  · intro fuel k v0 env hcompound
    cases v0 <;> first
      | rfl
      | simp [isCompound] at hcompound
  · intro fuel env b hf
    rw [dict_shortcut_scalar fuel "write" env (Value.str "hello\n") rfl, hf]

/-- C8 witness: the scalar branch applied to the `write` example with a
concrete environment binding `write` to a host builtin. -/
theorem c8_interpreter_witness :
    interp 8 (Value.dict [("write", Value.str "hello\n")])
        [[("write", Value.builtin BName.listB)]]
      = applyCallable 7 (Value.builtin BName.listB) [Value.str "hello\n"]
          [[("write", Value.builtin BName.listB)]] :=
  c8_interpreter.2.2.2.2 7 [[("write", Value.builtin BName.listB)]]
    BName.listB rfl

/-! ### C5 : hostname idempotence -/

theorem subChar_host (c : Char) : isHostChar (subChar c) = true := by
  unfold subChar
  by_cases h : isHostChar c
  · simp [h]
  · simp [h]
    decide

theorem pyLower_fix {c : Char} (h : isHostChar c = true) : pyLower c = c := by
  have hn : ¬(c.toNat ≥ 65 ∧ c.toNat ≤ 90) := by
    simp [isHostChar] at h
    omega
  show Char.toLower c = c
  unfold Char.toLower
  exact if_neg hn

theorem subChar_fix {c : Char} (h : isHostChar c = true) : subChar c = c := by
  simp [subChar, h]

theorem mapped_host (l : List Char) :
    ∀ c ∈ l.map (fun c => subChar (pyLower c)), isHostChar c = true := by
  intro c hc
  rcases List.mem_map.mp hc with ⟨a, -, rfl⟩
  exact subChar_host _

theorem mapped_fix (l : List Char) (h : ∀ c ∈ l, isHostChar c = true) :
    l.map (fun c => subChar (pyLower c)) = l := by
  induction l with
  | nil => rfl
  | cons a t ih =>
    have ha := h a (List.mem_cons_self _ _)
    simp [pyLower_fix ha, subChar_fix ha,
      ih (fun c hc => h c (List.mem_cons_of_mem _ hc))]

theorem collapse_mem : ∀ (l : List Char) c, c ∈ collapseDashes l → c ∈ l := by
  intro l
  induction l using collapseDashes.induct with
  | case1 => intro c hc; cases hc
  | case2 d => intro c hc; exact hc
  | case3 a b rest h ih =>
    intro c hc
    rw [collapseDashes, if_pos h] at hc
    exact List.mem_cons_of_mem _ (ih c hc)
  | case4 a b rest h ih =>
    intro c hc
    rw [collapseDashes, if_neg h] at hc
    rcases List.mem_cons.mp hc with rfl | hc'
    · exact List.mem_cons_self _ _
    · exact List.mem_cons_of_mem _ (ih c hc')

theorem collapse_head : ∀ (l : List Char), l ≠ [] →
    (collapseDashes l).head? = l.head? := by
  intro l
  induction l using collapseDashes.induct with
  | case1 => intro h; exact absurd rfl h
  | case2 d => intro _; rfl
  | case3 a b rest h ih =>
    intro _
    rw [collapseDashes, if_pos h, ih (by simp)]
    simp [h.1, h.2]
  | case4 a b rest h ih =>
    intro _
    rw [collapseDashes, if_neg h]
    simp

theorem collapse_chain : ∀ l : List Char, NoDashRun (collapseDashes l) := by
  intro l
  induction l using collapseDashes.induct with
  | case1 => exact List.chain'_nil
  | case2 d => exact List.chain'_singleton d
  | case3 a b rest h ih => rw [collapseDashes, if_pos h]; exact ih
  | case4 a b rest h ih =>
    rw [collapseDashes, if_neg h]
    refine List.chain'_cons'.mpr ⟨?_, ih⟩
    intro y hy
    rw [collapse_head (b :: rest) (by simp)] at hy
    simp at hy
    subst hy
    exact h

theorem collapse_eq_self : ∀ l : List Char, NoDashRun l → collapseDashes l = l := by
  intro l
  induction l using collapseDashes.induct with
  | case1 => intro _; rfl
  | case2 d => intro _; rfl
  | case3 a b rest h ih =>
    intro hc
    exact absurd h (List.chain'_cons.mp hc).1
  | case4 a b rest h ih =>
    intro hc
    rw [collapseDashes, if_neg h, ih (List.chain'_cons.mp hc).2]

theorem stripDashes_eq_rdrop (l : List Char) :
    stripDashes l
      = List.rdropWhile (fun c => c = '-') (List.dropWhile (fun c => c = '-') l) :=
  rfl

theorem rdrop_isPrefixLem (p : Char → Bool) (l : List Char) :
    List.IsPrefix (List.rdropWhile p l) l :=
  List.rdropWhile_prefix p l

theorem chain_of_isPrefixLem {l m : List Char} (h : NoDashRun m)
    (hp : List.IsPrefix l m) : NoDashRun l :=
  List.Chain'.prefix h hp

theorem strip_sublist (l : List Char) : List.Sublist (stripDashes l) l := by
  rw [stripDashes_eq_rdrop]
  exact ((rdrop_isPrefixLem _ _).sublist).trans (List.dropWhile_suffix _).sublist

theorem strip_chain (l : List Char) (h : NoDashRun l) : NoDashRun (stripDashes l) := by
  rw [stripDashes_eq_rdrop]
  exact chain_of_isPrefixLem (h.suffix (List.dropWhile_suffix _)) (rdrop_isPrefixLem _ _)

theorem head?_dropWhile_not (p : Char → Bool) :
    ∀ (l : List Char) c, (List.dropWhile p l).head? = some c → p c = false := by
  intro l
  induction l with
  | nil => intro c hc; simp at hc
  | cons a t ih =>
    intro c hc
    rw [List.dropWhile_cons] at hc
    by_cases hpa : p a
    · rw [if_pos hpa] at hc
      exact ih c hc
    · rw [if_neg hpa] at hc
      simp at hc
      subst hc
      simpa using hpa

theorem strip_head (l : List Char) (c : Char)
    (h : (stripDashes l).head? = some c) : c ≠ '-' := by
  rw [stripDashes_eq_rdrop] at h
  obtain ⟨t, ht⟩ := rdrop_isPrefixLem (fun c => c = '-')
    (List.dropWhile (fun c => c = '-') l)
  have hdw : (List.dropWhile (fun c => c = '-') l).head? = some c := by
    cases hr : List.rdropWhile (fun c => c = '-')
        (List.dropWhile (fun c => c = '-') l) with
    | nil => rw [hr] at h; cases h
    | cons x xs =>
      rw [hr] at h
      simp at h
      rw [← ht, hr]
      simpa using h
  have := head?_dropWhile_not _ l c hdw
  simpa using this

theorem strip_last (l : List Char) (c : Char)
    (h : (stripDashes l).getLast? = some c) : c ≠ '-' := by
  rw [stripDashes_eq_rdrop] at h
  have hne : List.rdropWhile (fun c => c = '-')
      (List.dropWhile (fun c => c = '-') l) ≠ [] := by
    intro hnil
    rw [hnil] at h
    cases h
  have hlast := List.rdropWhile_last_not (fun c => c = '-')
    (List.dropWhile (fun c => c = '-') l) hne
  have heq := List.getLast?_eq_getLast _ hne
  rw [heq] at h
  simp at h
  subst h
  simpa using hlast

theorem core_mem (l : List Char) :
    ∀ c ∈ hostnameCore l, isHostChar c = true := by
  intro c hc
  have hc2 := (strip_sublist _).subset hc
  exact mapped_host l c (collapse_mem _ c hc2)

theorem core_chain (l : List Char) : NoDashRun (hostnameCore l) :=
  strip_chain _ (collapse_chain _)

theorem core_fix (l : List Char)
    (h1 : ∀ c ∈ l, isHostChar c = true) (h2 : NoDashRun l)
    (h3 : ∀ c, l.head? = some c → c ≠ '-')
    (h4 : ∀ c, l.getLast? = some c → c ≠ '-') :
    hostnameCore l = l := by
  unfold hostnameCore
  rw [mapped_fix l h1, collapse_eq_self l h2, stripDashes_eq_rdrop]
  have hdrop : List.dropWhile (fun c => c = '-') l = l := by
    cases l with
    | nil => rfl
    | cons a t =>
      have ha := h3 a rfl
      rw [List.dropWhile_cons, if_neg (by simpa using ha)]
  rw [hdrop]
  rw [List.rdropWhile_eq_self_iff]
  intro hl
  have := h4 (l.getLast hl) (List.getLast?_eq_getLast l hl)
  simpa using this

theorem head?_take_pos {n : Nat} (hn : 0 < n) (l : List Char) :
    (l.take n).head? = l.head? := by
  cases l with
  | nil => simp
  | cons a t =>
    cases n with
    | zero => omega
    | succ m => simp [List.take_succ_cons]

/-- C5 counterexample: on the 82-character name `"aa" ++ "-a" * 40`,
sanitization leaves 81 characters, truncation to 63 ends on a `'-'`,
and the second application strips that trailing dash — so the
derivation is not idempotent. -/
theorem c5_counterexample :
    to_valid_hostname (to_valid_hostname
        "aa-a-a-a-a-a-a-a-a-a-a-a-a-a-a-a-a-a-a-a-a-a-a-a-a-a-a-a-a-a-a-a-a-a-a-a-a-a-a-a-a")
      ≠ to_valid_hostname
        "aa-a-a-a-a-a-a-a-a-a-a-a-a-a-a-a-a-a-a-a-a-a-a-a-a-a-a-a-a-a-a-a-a-a-a-a-a-a-a-a-a" := by
  decide

/-- C5 (amended): `to_valid_hostname` is idempotent on every string
whose result does not end in `'-'` — the only way a second application
differs is when the 63-character truncation cuts just after a dash,
which the second pass then strips. -/
theorem c5_hostname_idempotent :
    ∀ s : String, (to_valid_hostname s).data.getLast? ≠ some '-' →
      to_valid_hostname (to_valid_hostname s) = to_valid_hostname s := by
  intro s hlast
  have hval : to_valid_hostname s
      = (if (if (hostnameCore s.data).length > 63
              then (hostnameCore s.data).take 63
              else hostnameCore s.data).isEmpty
         then "vm"
         else String.mk (if (hostnameCore s.data).length > 63
              then (hostnameCore s.data).take 63
              else hostnameCore s.data)) := rfl
  set r := hostnameCore s.data with hrdef
  set t := if r.length > 63 then r.take 63 else r with htdef
  by_cases hte : t.isEmpty
  · rw [hval, if_pos hte]
    rfl
  · rw [hval, if_neg hte]
    rw [hval, if_neg hte] at hlast
    have htsub : t ⊆ r := by
      rw [htdef]
      by_cases hlen : r.length > 63
      · rw [if_pos hlen]
        exact (List.take_sublist _ _).subset
      · rw [if_neg hlen]
        exact fun _ h => h
    have htmem : ∀ c ∈ t, isHostChar c = true :=
      fun c hc => core_mem s.data c (htsub hc)
    have htchain : NoDashRun t := by
      rw [htdef]
      by_cases hlen : r.length > 63
      · rw [if_pos hlen]
        exact (core_chain s.data).take 63
      · rw [if_neg hlen]
        exact core_chain s.data
    have hthead : ∀ c, t.head? = some c → c ≠ '-' := by
      intro c hc
      apply strip_head (collapseDashes (s.data.map (fun c => subChar (pyLower c)))) c
      have : t.head? = r.head? := by
        rw [htdef]
        by_cases hlen : r.length > 63
        · rw [if_pos hlen]
          exact head?_take_pos (by omega) r
        · rw [if_neg hlen]
      rw [this] at hc
      exact hc
    have htlast : ∀ c, t.getLast? = some c → c ≠ '-' := by
      intro c hc hceq
      subst hceq
      exact hlast hc
    have hcore : hostnameCore t = t := core_fix t htmem htchain hthead htlast
    have htlen : ¬ t.length > 63 := by
      rw [htdef]
      by_cases hlen : r.length > 63
      · rw [if_pos hlen]
        simp [List.length_take]
      · rw [if_neg hlen]
        omega
    show to_valid_hostname (String.mk t) = String.mk t
    unfold to_valid_hostname
    show (if (if (hostnameCore t).length > 63
              then (hostnameCore t).take 63 else hostnameCore t).isEmpty
          then "vm"
          else String.mk (if (hostnameCore t).length > 63
              then (hostnameCore t).take 63 else hostnameCore t)) = String.mk t
    rw [hcore, if_neg htlen, if_neg hte]

/-- C5 witness: the amended theorem at `"Hello World!"`, whose result
`"hello-world"` does not end in a dash. -/
theorem c5_hostname_idempotent_witness :
    to_valid_hostname (to_valid_hostname "Hello World!")
      = to_valid_hostname "Hello World!" :=
  c5_hostname_idempotent "Hello World!" (by decide)

/-! ### C2 : default-key override precedence -/

theorem strAppend_inj {pre a b : String} (h : pre ++ a = pre ++ b) : a = b := by
  have hd : (pre ++ a).data = (pre ++ b).data := congrArg String.data h
  rw [String.data_append, String.data_append] at hd
  have h2 : a.data = b.data := List.append_cancel_left hd
  obtain ⟨la⟩ := a
  obtain ⟨lb⟩ := b
  exact congrArg String.mk h2

/-- A string whose first character is not `'-'` differs from every
flag `"-" ++ K`. -/
theorem ne_flag_of_head {s K : String} (h : s.data.head? ≠ some '-') :
    s ≠ "-" ++ K := by
  intro heq
  apply h
  rw [heq, String.data_append]
  rfl

theorem append_head {pre x : String} {c : Char} {rest : List Char}
    (hpre : pre.data = c :: rest) : (pre ++ x).data.head? = some c := by
  rw [String.data_append, hpre]
  rfl

/-- A literal-prefixed string never equals a flag when the literal does
not start with a dash. -/
theorem append_ne_flag {pre x K : String} {c : Char} {rest : List Char}
    (hpre : pre.data = c :: rest) (hc : c ≠ '-') : pre ++ x ≠ "-" ++ K := by
  apply ne_flag_of_head
  rw [append_head hpre]
  simpa using hc

theorem assocPop_hasKey_self (L : AssocS) (k : String) :
    assocHasKey (assocPop L k) k = false := by
  induction L with
  | nil => rfl
  | cons p rest ih =>
    by_cases h : p.1 = k
    · simp [assocPop, h, ih]
    · simp [assocPop, assocHasKey, h, ih]

theorem assocPop_hasKey_other {k' k : String} (L : AssocS) (h : k' ≠ k) :
    assocHasKey (assocPop L k') k = assocHasKey L k := by
  induction L with
  | nil => rfl
  | cons p rest ih =>
    by_cases hp : p.1 = k'
    · have hpk : p.1 ≠ k := fun hc => h ((hp.symm.trans hc))
      simp [assocPop, assocHasKey, hp, hpk, ih, h, Ne.symm h]
    · by_cases hk : p.1 = k
      · simp [assocPop, assocHasKey, hp, hk, h, Ne.symm h]
      · simp [assocPop, assocHasKey, hp, hk, ih, h, Ne.symm h]

theorem assocPop_lookup_other {k' k : String} (L : AssocS) (h : k' ≠ k) :
    assocLookup (assocPop L k') k = assocLookup L k := by
  induction L with
  | nil => rfl
  | cons p rest ih =>
    by_cases hp : p.1 = k'
    · have hpk : p.1 ≠ k := fun hc => h ((hp.symm.trans hc))
      simp [assocPop, assocLookup, hp, hpk, ih, h, Ne.symm h]
    · by_cases hk : p.1 = k
      · simp [assocPop, assocLookup, hp, hk, h, Ne.symm h]
      · simp [assocPop, assocLookup, hp, hk, ih, h, Ne.symm h]

theorem assocSet_lookup_self {k v : String} (L : AssocS)
    (h : assocHasKey L k = true) : assocLookup (assocSet L k v) k = some v := by
  induction L with
  | nil => simp [assocHasKey] at h
  | cons p rest ih =>
    by_cases hp : p.1 = k
    · simp [assocSet, assocLookup, hp]
    · rw [assocHasKey, if_neg hp] at h
      simp [assocSet, assocLookup, hp, ih h]

theorem assocSet_lookup_other {k' k v : String} (L : AssocS) (h : k' ≠ k) :
    assocLookup (assocSet L k' v) k = assocLookup L k := by
  induction L with
  | nil => rfl
  | cons p rest ih =>
    by_cases hp : p.1 = k'
    · have hpk : p.1 ≠ k := fun hc => h ((hp.symm.trans hc))
      simp [assocSet, assocLookup, hp, hpk, ih, h]
    · by_cases hk : p.1 = k
      · simp [assocSet, assocLookup, hp, hk, h, Ne.symm h]
      · simp [assocSet, assocLookup, hp, hk, ih, h, Ne.symm h]

theorem assocSet_keys (L : AssocS) (k v : String) :
    (assocSet L k v).map Prod.fst = L.map Prod.fst := by
  induction L with
  | nil => rfl
  | cons p rest ih =>
    by_cases hp : p.1 = k
    · simp [assocSet, hp, ih]
    · simp [assocSet, hp, ih]

theorem assocSet_hasKey (L : AssocS) (k v k2 : String) :
    assocHasKey (assocSet L k v) k2 = assocHasKey L k2 := by
  induction L with
  | nil => rfl
  | cons p rest ih =>
    by_cases hp : p.1 = k
    · by_cases hk2 : p.1 = k2
      · simp [assocSet, assocHasKey, hp, hk2, hp.symm.trans hk2]
      · have : k ≠ k2 := fun hc => hk2 (hp.trans hc)
        simp [assocSet, assocHasKey, hp, hk2, this, ih]
    · simp [assocSet, assocHasKey, hp, ih]

theorem hasKey_iff_mem_keys (L : AssocS) (k : String) :
    assocHasKey L k = true ↔ k ∈ L.map Prod.fst := by
  induction L with
  | nil => simp [assocHasKey]
  | cons p rest ih =>
    by_cases hp : p.1 = k
    · simp [assocHasKey, hp]
    · simp [assocHasKey, hp, ih]
      intro hc
      exact absurd hc.symm hp

theorem assocSet_mem {p : String × String} {k v : String} (L : AssocS)
    (h : p ∈ assocSet L k v) : p ∈ L ∨ p = (k, v) := by
  induction L with
  | nil => cases h
  | cons q rest ih =>
    by_cases hq : q.1 = k
    · rw [assocSet, if_pos hq] at h
      rcases List.mem_cons.mp h with rfl | h'
      · exact Or.inr rfl
      · rcases ih h' with h'' | h''
        · exact Or.inl (List.mem_cons_of_mem _ h'')
        · exact Or.inr h''
    · rw [assocSet, if_neg hq] at h
      rcases List.mem_cons.mp h with rfl | h'
      · exact Or.inl (List.mem_cons_self _ _)
      · rcases ih h' with h'' | h''
        · exact Or.inl (List.mem_cons_of_mem _ h'')
        · exact Or.inr h''

theorem assocPop_subset {p : String × String} {k : String} (L : AssocS)
    (h : p ∈ assocPop L k) : p ∈ L := by
  induction L with
  | nil => cases h
  | cons q rest ih =>
    by_cases hq : q.1 = k
    · rw [assocPop, if_pos hq] at h
      exact List.mem_cons_of_mem _ (ih h)
    · rw [assocPop, if_neg hq] at h
      rcases List.mem_cons.mp h with rfl | h'
      · exact List.mem_cons_self _ _
      · exact List.mem_cons_of_mem _ (ih h')

theorem assocPop_keys_sublist (L : AssocS) (k : String) :
    List.Sublist ((assocPop L k).map Prod.fst) (L.map Prod.fst) := by
  induction L with
  | nil => exact List.Sublist.refl _
  | cons q rest ih =>
    by_cases hq : q.1 = k
    · rw [assocPop, if_pos hq]
      exact ih.trans (List.sublist_cons_self _ _)
    · rw [assocPop, if_neg hq]
      simpa using ih

theorem assocLookup_mem {k v : String} (L : AssocS)
    (h : assocLookup L k = some v) : (k, v) ∈ L := by
  induction L with
  | nil => cases h
  | cons p rest ih =>
    by_cases hp : p.1 = k
    · rw [assocLookup, if_pos hp] at h
      have : p = (k, v) := by
        obtain ⟨p1, p2⟩ := p
        simp at hp
        simp at h
        simp [hp, h]
      exact this ▸ List.mem_cons_self _ _
    · rw [assocLookup, if_neg hp] at h
      exact List.mem_cons_of_mem _ (ih h)

theorem hasKey_false_not_mem {k : String} (L : AssocS)
    (h : assocHasKey L k = false) : ∀ p ∈ L, p.1 ≠ k := by
  induction L with
  | nil => intro p hp; cases hp
  | cons q rest ih =>
    intro p hp
    by_cases hq : q.1 = k
    · rw [assocHasKey, if_pos hq] at h
      cases h
    · rw [assocHasKey, if_neg hq] at h
      rcases List.mem_cons.mp hp with rfl | hp'
      · exact hq
      · exact ih h p hp'

theorem filter_key_len_one {k v : String} (L : AssocS)
    (hnd : (L.map Prod.fst).Nodup) (hmem : (k, v) ∈ L) :
    (L.filter (fun p => p.1 = k)).length = 1 := by
  induction L with
  | nil => cases hmem
  | cons q rest ih =>
    rw [List.map_cons] at hnd
    have hnd2 := List.nodup_cons.mp hnd
    rcases List.mem_cons.mp hmem with rfl | hmem'
    · have hfil : rest.filter (fun p => p.1 = k) = [] := by
        rw [List.filter_eq_nil_iff]
        intro p hp hpk
        simp at hpk
        have hmm : p.1 ∈ rest.map Prod.fst := List.mem_map_of_mem Prod.fst hp
        rw [hpk] at hmm
        exact hnd2.1 hmm
      simp [List.filter_cons, hfil]
    · have hq : q.1 ≠ k := by
        intro hqk
        have hmm : k ∈ rest.map Prod.fst := by
          have := List.mem_map_of_mem Prod.fst hmem'
          simpa using this
        rw [← hqk] at hmm
        exact hnd2.1 hmm
      simp [List.filter_cons, hq]
      exact ih hnd2.2 hmem'

theorem filter_key_len_zero {k : String} (L : AssocS)
    (h : assocHasKey L k = false) :
    (L.filter (fun p => p.1 = k)).length = 0 := by
  rw [List.length_eq_zero, List.filter_eq_nil_iff]
  intro p hp
  simpa using hasKey_false_not_mem L h p hp

theorem count_defaults_eq (K : String) (L : AssocS)
    (hvals : ∀ p ∈ L, p.2 ≠ "-" ++ K) :
    (L.flatMap (fun p => [some ("-" ++ p.1), some p.2])).count
        (some ("-" ++ K))
      = (L.filter (fun p => p.1 = K)).length := by
  induction L with
  | nil => rfl
  | cons p rest ih =>
    have hval := hvals p (List.mem_cons_self _ _)
    have ih' := ih (fun q hq => hvals q (List.mem_cons_of_mem _ hq))
    rw [List.flatMap_cons, List.count_append, ih', List.filter_cons]
    by_cases hp : p.1 = K
    · rw [hp]
      simp [List.count_cons, hval]
      omega
    · have : "-" ++ p.1 ≠ "-" ++ K := fun hc => hp (strAppend_inj hc)
      simp [List.count_cons, hval, this, hp]

theorem image_pass_entries :
    ∀ (qa : List String) (da : AssocS) (mem : String) p,
      p ∈ (image_args_pass qa da mem).1 → p ∈ da := by
  intro qa
  induction qa with
  | nil => intro da mem p hp; exact hp
  | cons a rest ih =>
    intro da mem p hp
    rw [image_args_pass] at hp
    by_cases hs : strStartsWith a "-" = true
    · rw [if_pos hs] at hp
      by_cases hk : assocHasKey da (strDropChars a 1) = true
      · rw [if_pos hk] at hp
        exact assocPop_subset da (ih _ _ p hp)
      · rw [if_neg hk] at hp
        exact ih _ _ p hp
    · rw [if_neg hs] at hp
      exact ih _ _ p hp

theorem image_pass_hasKey_mono {K : String} :
    ∀ (qa : List String) (da : AssocS) (mem : String),
      assocHasKey da K = false →
      assocHasKey (image_args_pass qa da mem).1 K = false := by
  intro qa
  induction qa with
  | nil => intro da mem h; exact h
  | cons a rest ih =>
    intro da mem h
    rw [image_args_pass]
    by_cases hs : strStartsWith a "-" = true
    · rw [if_pos hs]
      by_cases hk : assocHasKey da (strDropChars a 1) = true
      · rw [if_pos hk]
        apply ih
        by_cases heq : strDropChars a 1 = K
        · rw [heq]
          exact assocPop_hasKey_self da K
        · rw [assocPop_hasKey_other da heq]
          exact h
      · rw [if_neg hk]
        exact ih _ _ h
    · rw [if_neg hs]
      exact ih _ _ h

theorem image_pass_K_preserved {K : String} :
    ∀ (qa : List String) (da : AssocS) (mem : String),
      (∀ a ∈ qa, ¬(strStartsWith a "-" = true ∧ strDropChars a 1 = K)) →
      assocHasKey (image_args_pass qa da mem).1 K = assocHasKey da K
        ∧ assocLookup (image_args_pass qa da mem).1 K = assocLookup da K := by
  intro qa
  induction qa with
  | nil => intro da mem _; exact ⟨rfl, rfl⟩
  | cons a rest ih =>
    intro da mem hno
    have hna := hno a (List.mem_cons_self _ _)
    have hrest := fun b hb => hno b (List.mem_cons_of_mem _ hb)
    rw [image_args_pass]
    by_cases hs : strStartsWith a "-" = true
    · rw [if_pos hs]
      have hdk : strDropChars a 1 ≠ K := fun hc => hna ⟨hs, hc⟩
      by_cases hk : assocHasKey da (strDropChars a 1) = true
      · rw [if_pos hk]
        constructor
        · rw [(ih _ _ hrest).1, assocPop_hasKey_other da hdk]
        · rw [(ih _ _ hrest).2, assocPop_lookup_other da hdk]
      · rw [if_neg hk]
        exact ih _ _ hrest
    · rw [if_neg hs]
      exact ih _ _ hrest

theorem image_pass_pops {K : String} :
    ∀ (qa : List String) (da : AssocS) (mem : String),
      (∃ a ∈ qa, strStartsWith a "-" = true ∧ strDropChars a 1 = K) →
      assocHasKey (image_args_pass qa da mem).1 K = false := by
  intro qa
  induction qa with
  | nil => rintro da mem ⟨a, ha, -⟩; cases ha
  | cons a rest ih =>
    rintro da mem ⟨b, hb, hbs, hbd⟩
    rw [image_args_pass]
    rcases List.mem_cons.mp hb with rfl | hb'
    · rw [if_pos hbs, hbd]
      by_cases hk : assocHasKey da K = true
      · rw [if_pos hk]
        apply image_pass_hasKey_mono _ _ _ (assocPop_hasKey_self da K)
      · rw [if_neg hk]
        apply image_pass_hasKey_mono
        simpa using hk
    · by_cases hs : strStartsWith a "-" = true
      · rw [if_pos hs]
        by_cases hk : assocHasKey da (strDropChars a 1) = true
        · rw [if_pos hk]
          exact ih _ _ ⟨b, hb', hbs, hbd⟩
        · rw [if_neg hk]
          exact ih _ _ ⟨b, hb', hbs, hbd⟩
      · rw [if_neg hs]
        exact ih _ _ ⟨b, hb', hbs, hbd⟩

theorem image_pass_keys_sublist :
    ∀ (qa : List String) (da : AssocS) (mem : String),
      List.Sublist (((image_args_pass qa da mem).1).map Prod.fst)
        (da.map Prod.fst) := by
  intro qa
  induction qa with
  | nil => intro da mem; exact List.Sublist.refl _
  | cons a rest ih =>
    intro da mem
    rw [image_args_pass]
    by_cases hs : strStartsWith a "-" = true
    · rw [if_pos hs]
      by_cases hk : assocHasKey da (strDropChars a 1) = true
      · rw [if_pos hk]
        exact (ih _ _).trans (assocPop_keys_sublist da _)
      · rw [if_neg hk]
        exact ih _ _
    · rw [if_neg hs]
      exact ih _ _

theorem user_block_pass_append (fmt : String → String) :
    ∀ (xs ys : List (String × Json)) (da : AssocS) (mem : String),
      user_block_pass fmt (xs ++ ys) da mem
        = user_block_pass fmt ys (user_block_pass fmt xs da mem).1
            (user_block_pass fmt xs da mem).2 := by
  intro xs
  induction xs with
  | nil => intro ys da mem; rfl
  | cons p rest ih =>
    intro ys da mem
    obtain ⟨key, value⟩ := p
    simp only [List.cons_append, user_block_pass]
    cases hev : extractVal fmt [(key, value)] key with
    | none =>
      simp only [hev]
      exact ih ys da mem
    | some v =>
      simp only [hev]
      by_cases hk : assocHasKey da key = true
      · rw [if_pos hk, if_pos hk]
        exact ih ys _ _
      · rw [if_neg hk, if_neg hk]
        exact ih ys da mem

theorem user_args_pass_eq (fmt : String → String) :
    ∀ (blocks : List (List (String × Json))) (da : AssocS) (mem : String),
      user_args_pass fmt blocks da mem
        = user_block_pass fmt blocks.flatten da mem := by
  intro blocks
  induction blocks with
  | nil => intro da mem; rfl
  | cons b rest ih =>
    intro da mem
    rw [user_args_pass, List.flatten_cons, user_block_pass_append fmt b]
    exact ih _ _

theorem user_block_keys (fmt : String → String) :
    ∀ (pairs : List (String × Json)) (da : AssocS) (mem : String),
      ((user_block_pass fmt pairs da mem).1).map Prod.fst = da.map Prod.fst := by
  intro pairs
  induction pairs with
  | nil => intro da mem; rfl
  | cons p rest ih =>
    intro da mem
    obtain ⟨key, value⟩ := p
    simp only [user_block_pass]
    cases hev : extractVal fmt [(key, value)] key with
    | none =>
      simp only [hev]
      exact ih da mem
    | some v =>
      simp only [hev]
      by_cases hk : assocHasKey da key = true
      · rw [if_pos hk, ih, assocSet_keys]
      · rw [if_neg hk]
        exact ih da mem

theorem user_block_hasKey (fmt : String → String) (K : String)
    (pairs : List (String × Json)) (da : AssocS) (mem : String) :
    assocHasKey ((user_block_pass fmt pairs da mem).1) K = assocHasKey da K := by
  have h1 := hasKey_iff_mem_keys ((user_block_pass fmt pairs da mem).1) K
  have h2 := hasKey_iff_mem_keys da K
  rw [user_block_keys] at h1
  cases hk : assocHasKey da K with
  | true => exact h1.mpr (h2.mp hk)
  | false =>
    cases hk2 : assocHasKey ((user_block_pass fmt pairs da mem).1) K with
    | true =>
      have := h2.mpr (h1.mp hk2)
      rw [this] at hk
      cases hk
    | false => rfl

theorem extractVal_single (fmt : String → String) (key : String) (value : Json) :
    extractVal fmt [(key, value)] key
      = if value.truthy = true then some (fmt (pyStr value)) else none := by
  simp [extractVal, jsonLookup]

theorem user_block_entries (fmt : String → String) :
    ∀ (pairs : List (String × Json)) (da : AssocS) (mem : String) p,
      p ∈ (user_block_pass fmt pairs da mem).1 →
      p ∈ da ∨ ∃ value : Json, (p.1, value) ∈ pairs ∧ value.truthy = true
          ∧ p.2 = fmt (pyStr value) := by
  intro pairs
  induction pairs with
  | nil => intro da mem p hp; exact Or.inl hp
  | cons q rest ih =>
    intro da mem p hp
    obtain ⟨key, value⟩ := q
    simp only [user_block_pass] at hp
    cases hev : extractVal fmt [(key, value)] key with
    | none =>
      simp only [hev] at hp
      rcases ih da mem p hp with h | ⟨w, hw1, hw2, hw3⟩
      · exact Or.inl h
      · exact Or.inr ⟨w, List.mem_cons_of_mem _ hw1, hw2, hw3⟩
    | some v =>
      simp only [hev] at hp
      by_cases hk : assocHasKey da key = true
      · rw [if_pos hk] at hp
        rcases ih _ _ p hp with h | ⟨w, hw1, hw2, hw3⟩
        · rcases assocSet_mem da h with h2 | h2
          · exact Or.inl h2
          · rw [extractVal_single] at hev
            have hev2 : value.truthy = true ∧ fmt (pyStr value) = v := by
              by_cases ht : value.truthy = true
              · rw [if_pos ht] at hev
                exact ⟨ht, by simpa using hev⟩
              · rw [if_neg ht] at hev
                cases hev
            refine Or.inr ⟨value, ?_, hev2.1, ?_⟩
            · rw [h2]
              exact List.mem_cons_self _ _
            · rw [h2]
              exact hev2.2.symm
        · exact Or.inr ⟨w, List.mem_cons_of_mem _ hw1, hw2, hw3⟩
      · rw [if_neg hk] at hp
        rcases ih da mem p hp with h | ⟨w, hw1, hw2, hw3⟩
        · exact Or.inl h
        · exact Or.inr ⟨w, List.mem_cons_of_mem _ hw1, hw2, hw3⟩

theorem user_block_noK (fmt : String → String) {K : String} :
    ∀ (pairs : List (String × Json)) (da : AssocS) (mem : String),
      (∀ pr ∈ pairs, pr.1 ≠ K) →
      assocLookup ((user_block_pass fmt pairs da mem).1) K = assocLookup da K := by
  intro pairs
  induction pairs with
  | nil => intro da mem _; rfl
  | cons q rest ih =>
    intro da mem hno
    obtain ⟨key, value⟩ := q
    have hkey : key ≠ K := hno (key, value) (List.mem_cons_self _ _)
    have hrest := fun pr hpr => hno pr (List.mem_cons_of_mem _ hpr)
    simp only [user_block_pass]
    cases hev : extractVal fmt [(key, value)] key with
    | none =>
      simp only [hev]
      exact ih da mem hrest
    | some v =>
      simp only [hev]
      by_cases hk : assocHasKey da key = true
      · rw [if_pos hk, ih _ _ hrest, assocSet_lookup_other da hkey]
      · rw [if_neg hk]
        exact ih da mem hrest

theorem user_block_K_lookup (fmt : String → String) {K : String} {value : Json} :
    ∀ (pairs : List (String × Json)) (da : AssocS) (mem : String),
      assocHasKey da K = true →
      keyPairsFor pairs K = [value] → value.truthy = true →
      assocLookup ((user_block_pass fmt pairs da mem).1) K
        = some (fmt (pyStr value)) := by
  intro pairs
  induction pairs with
  | nil => intro da mem _ hkp _; cases hkp
  | cons q rest ih =>
    intro da mem hda hkp htr
    obtain ⟨key, val'⟩ := q
    by_cases hkey : key = K
    · subst hkey
      unfold keyPairsFor at hkp
      rw [List.filter_cons] at hkp
      simp at hkp
      obtain ⟨rfl, hnoK'⟩ := hkp
      have hnoK : ∀ pr ∈ rest, pr.1 ≠ key := fun pr hpr => hnoK' pr.1 pr.2 hpr
      simp only [user_block_pass]
      have hev : extractVal fmt [(key, val')] key = some (fmt (pyStr val')) := by
        rw [extractVal_single, if_pos htr]
      simp only [hev]
      rw [if_pos hda, user_block_noK fmt _ _ _ hnoK,
        assocSet_lookup_self da hda]
    · have hkp2 : keyPairsFor rest K = [value] := by
        unfold keyPairsFor at hkp
        rw [List.filter_cons] at hkp
        rw [if_neg (by simpa using hkey)] at hkp
        exact hkp
      simp only [user_block_pass]
      cases hev : extractVal fmt [(key, val')] key with
      | none =>
        simp only [hev]
        exact ih da mem hda hkp2 htr
      | some v =>
        simp only [hev]
        by_cases hk : assocHasKey da key = true
        · rw [if_pos hk]
          apply ih _ _ _ hkp2 htr
          rw [assocSet_hasKey]
          exact hda
        · rw [if_neg hk]
          exact ih da mem hda hkp2 htr

theorem append_head_ne (pre x : String)
    (h : pre.data.head? ≠ some '-') (hne : pre.data ≠ []) :
    (pre ++ x).data.head? ≠ some '-' := by
  rw [String.data_append]
  cases hp : pre.data with
  | nil => exact absurd hp hne
  | cons c rest =>
    rw [List.cons_append]
    rw [hp] at h
    simpa using h

/-- A literal-prefixed string never equals a flag when the literal is
nonempty and does not start with a dash. -/
theorem append_ne_flagH (pre x K : String)
    (h : pre.data.head? ≠ some '-') (hne : pre.data ≠ []) : pre ++ x ≠ "-" ++ K :=
  ne_flag_of_head (append_head_ne pre x h hne)

theorem lit_ne_flag (s K : String) (h : s.data.head? ≠ some '-') : s ≠ "-" ++ K :=
  ne_flag_of_head h

theorem fixed_flag_ne {K : String} (s : String)
    (hK : K ∈ ["cpu", "machine", "accel", "m", "smp"])
    (hs : s ∈ ["name", "smbios", "netdev", "device", "drive", "chardev",
      "object", "numa"]) :
    "-" ++ s ≠ "-" ++ K := by
  intro h
  have hsK : s = K := strAppend_inj h
  subst hsK
  fin_cases hK <;> revert hs <;> decide

theorem not_mem_nameSection {inp : QemuArgsInput} {K : String}
    (hK : K ∈ ["cpu", "machine", "accel", "m", "smp"])
    (hname : inp.vm_name ≠ some ("-" ++ K)) :
    some ("-" ++ K) ∉ nameSection inp := by
  unfold nameSection
  cases hvm : inp.vm_name with
  | none => simp
  | some n =>
    show some ("-" ++ K) ∉ (if n ≠ "" then [some "-name", some n] else [])
    by_cases hn : n ≠ ""
    · rw [if_pos hn]
      intro hmem
      rcases List.mem_cons.mp hmem with h1 | h1
      · exact fixed_flag_ne "name" hK (by decide) (by simpa using h1.symm)
      · rcases List.mem_cons.mp h1 with h2 | h2
        · apply hname
          rw [hvm]
          simpa using h2.symm
        · cases h2
    · rw [if_neg hn]
      simp

theorem not_mem_hostnameSection {inp : QemuArgsInput} {K : String}
    (hK : K ∈ ["cpu", "machine", "accel", "m", "smp"]) :
    some ("-" ++ K) ∉ hostnameSection inp := by
  unfold hostnameSection
  cases hostnameOf inp with
  | none => simp
  | some h =>
    show some ("-" ++ K) ∉ (if h ≠ "" then [some "-smbios",
      some ("type=11,value=io.systemd.credential:system.hostname=" ++ h)] else [])
    by_cases hh : h ≠ ""
    · rw [if_pos hh]
      intro hmem
      rcases List.mem_cons.mp hmem with h1 | h1
      · exact fixed_flag_ne "smbios" hK (by decide) (by simpa using h1.symm)
      · rcases List.mem_cons.mp h1 with h2 | h2
        · exact append_ne_flagH "type=11,value=io.systemd.credential:system.hostname="
            h K (by decide) (by decide) (by simpa using h2.symm)
        · cases h2
    · rw [if_neg hh]
      simp

theorem not_mem_networkSection {inp : QemuArgsInput} {K : String}
    (hK : K ∈ ["cpu", "machine", "accel", "m", "smp"]) :
    some ("-" ++ K) ∉ networkSection inp := by
  unfold networkSection
  by_cases hnet : inp.network = none ∨ inp.network.map pyLowerStr = some "user"
  · rw [if_pos hnet]
    intro hmem
    rcases List.mem_cons.mp hmem with h1 | h1
    · exact fixed_flag_ne "netdev" hK (by decide) (by simpa using h1.symm)
    · rcases List.mem_cons.mp h1 with h2 | h2
      · exact append_ne_flagH "user,id=user.qemu-compose"
          ((match hostnameOf inp with
            | some h => if h ≠ "" then ",hostname=" ++ h else ""
            | none => "") ++ hostfwd_segments inp.ports) K
          (by decide) (by decide) (by simpa [String.append_assoc] using h2.symm)
      · rcases List.mem_cons.mp h2 with h3 | h3
        · exact fixed_flag_ne "device" hK (by decide) (by simpa using h3.symm)
        · rcases List.mem_cons.mp h3 with h4 | h4
          · exact lit_ne_flag "virtio-net,netdev=user.qemu-compose" K (by decide)
              (by simpa using h4.symm)
          · cases h4
  · rw [if_neg hnet]
    simp

theorem not_mem_cidSection {inp : QemuArgsInput} {K : String}
    (hK : K ∈ ["cpu", "machine", "accel", "m", "smp"]) :
    some ("-" ++ K) ∉ cidSection inp := by
  unfold cidSection
  by_cases hc : inp.cid ≠ 0
  · rw [if_pos hc]
    intro hmem
    rcases List.mem_cons.mp hmem with h1 | h1
    · exact fixed_flag_ne "device" hK (by decide) (by simpa using h1.symm)
    · rcases List.mem_cons.mp h1 with h2 | h2
      · exact append_ne_flagH "vhost-vsock-pci,id=vhost-vsock-pci0,guest-cid="
          (toString inp.cid) K (by decide) (by decide) (by simpa using h2.symm)
      · cases h2
  · rw [if_neg hc]
    simp

theorem not_mem_sshSection {inp : QemuArgsInput} {K : String}
    (hK : K ∈ ["cpu", "machine", "accel", "m", "smp"]) :
    some ("-" ++ K) ∉ sshSection inp := by
  unfold sshSection
  intro hmem
  rcases List.mem_cons.mp hmem with h1 | h1
  · exact fixed_flag_ne "smbios" hK (by decide) (by simpa using h1.symm)
  · rcases List.mem_cons.mp h1 with h2 | h2
    · exact append_ne_flagH
        "type=11,value=io.systemd.credential.binary:ssh.authorized_keys.root="
        inp.pub_b64 K (by decide) (by decide) (by simpa using h2.symm)
    · cases h2

theorem not_mem_driveSection {inp : QemuArgsInput} {K : String}
    (hK : K ∈ ["cpu", "machine", "accel", "m", "smp"]) :
    some ("-" ++ K) ∉ driveSection inp := by
  unfold driveSection
  generalize effectiveOverlays inp = ov
  induction ov with
  | nil => simp
  | cons p rest ih =>
    rw [List.flatMap_cons]
    intro hmem
    rcases List.mem_append.mp hmem with h1 | h1
    · rcases List.mem_cons.mp h1 with h2 | h2
      · exact fixed_flag_ne "drive" hK (by decide) (by simpa using h2.symm)
      · rcases List.mem_cons.mp h2 with h3 | h3
        · refine append_ne_flagH "file="
            (p.1 ++ (if p.2.format ≠ "" then ",format=" ++ p.2.format else "")
              ++ (if p.2.opts ≠ "" then "," ++ p.2.opts else "")) K
            (by decide) (by decide) ?_
          have := h3.symm
          simp at this
          rw [← this]
          simp [drive_param_for, String.append_assoc]
        · cases h3
    · exact ih h1

theorem not_mem_volumeLoop {inp : QemuArgsInput} {K : String}
    (hK : K ∈ ["cpu", "machine", "accel", "m", "smp"]) :
    ∀ (vols : List String) (i : Nat),
      some ("-" ++ K) ∉ (volumeLoop inp i vols).1 := by
  intro vols
  induction vols with
  | nil => intro i; simp [volumeLoop]
  | cons v rest ih =>
    intro i
    rw [volumeLoop]
    cases parse_volume_spec v with
    | none => exact ih (i + 1)
    | some triple =>
      obtain ⟨src, dst, ro⟩ := triple
      show some ("-" ++ K) ∉
        ((if inp.virtiofsdOk i = true then
            ([some "-chardev",
              some ("socket,id=qcfs-char" ++ toString i ++ ",path="
                ++ pathJoin inp.instanceDir
                  ("virtiofs-" ++ volume_tag_for dst i ++ ".sock")),
              some "-device",
              some ("vhost-user-fs-pci,chardev=qcfs-char" ++ toString i ++ ",tag="
                ++ volume_tag_for dst i)] ++ (volumeLoop inp (i + 1) rest).1,
             (volume_tag_for dst i ++ " " ++ dst ++ " virtiofs defaults"
                ++ (if ro = true then ",ro" else "") ++ " 0 0")
               :: (volumeLoop inp (i + 1) rest).2)
          else ((volumeLoop inp (i + 1) rest).1, (volumeLoop inp (i + 1) rest).2)).1)
      by_cases hok : inp.virtiofsdOk i = true
      · rw [if_pos hok]
        intro hmem
        rcases List.mem_cons.mp hmem with h1 | h1
        · exact fixed_flag_ne "chardev" hK (by decide) (by simpa using h1.symm)
        · rcases List.mem_cons.mp h1 with h2 | h2
          · exact append_ne_flagH "socket,id=qcfs-char"
              (toString i ++ (",path=" ++ pathJoin inp.instanceDir
                ("virtiofs-" ++ volume_tag_for dst i ++ ".sock"))) K
              (by decide) (by decide)
              (by simpa [String.append_assoc] using h2.symm)
          · rcases List.mem_cons.mp h2 with h3 | h3
            · exact fixed_flag_ne "device" hK (by decide) (by simpa using h3.symm)
            · rcases List.mem_cons.mp h3 with h4 | h4
              · exact append_ne_flagH "vhost-user-fs-pci,chardev=qcfs-char"
                  (toString i ++ (",tag=" ++ volume_tag_for dst i)) K
                  (by decide) (by decide)
                  (by simpa [String.append_assoc] using h4.symm)
              · exact ih (i + 1) h4
      · rw [if_neg hok]
        exact ih (i + 1)

theorem not_mem_memSection {inp : QemuArgsInput} {K : String}
    (hK : K ∈ ["cpu", "machine", "accel", "m", "smp"]) :
    some ("-" ++ K) ∉ memSection inp := by
  unfold memSection
  by_cases hf : fstabEntries inp ≠ []
  · rw [if_pos hf]
    intro hmem
    rcases List.mem_cons.mp hmem with h1 | h1
    · exact fixed_flag_ne "object" hK (by decide) (by simpa using h1.symm)
    · rcases List.mem_cons.mp h1 with h2 | h2
      · exact append_ne_flagH "memory-backend-file,id=qc-mem,size="
          ((finalDefaults inp).2 ++ ",mem-path=/dev/shm,share=on") K
          (by decide) (by decide) (by simpa [String.append_assoc] using h2.symm)
      · rcases List.mem_cons.mp h2 with h3 | h3
        · exact fixed_flag_ne "numa" hK (by decide) (by simpa using h3.symm)
        · rcases List.mem_cons.mp h3 with h4 | h4
          · exact lit_ne_flag "node,memdev=qc-mem" K (by decide)
              (by simpa using h4.symm)
          · rcases List.mem_cons.mp h4 with h5 | h5
            · exact fixed_flag_ne "smbios" hK (by decide) (by simpa using h5.symm)
            · rcases List.mem_cons.mp h5 with h6 | h6
              · exact append_ne_flagH
                  "type=11,value=io.systemd.credential.binary:fstab.extra="
                  (inp.fstab_b64 (String.intercalate "\n" (fstabEntries inp))) K
                  (by decide) (by decide) (by simpa using h6.symm)
              · cases h6
  · rw [if_neg hf]
    simp

theorem imageAppend_count_zero {inp : QemuArgsInput} {K : String}
    (h : ∀ a ∈ inp.manifestArgs.getD [], a ≠ "" → inp.fmt a ≠ "-" ++ K) :
    (imageAppendSection inp).count (some ("-" ++ K)) = 0 := by
  unfold imageAppendSection
  cases hma : inp.manifestArgs with
  | none => rfl
  | some qa =>
    rw [List.count_eq_zero]
    intro hmem
    rw [List.mem_map] at hmem
    obtain ⟨a, ha, hfa⟩ := hmem
    by_cases hae : a = ""
    · rw [if_pos hae] at hfa
      cases hfa
    · rw [if_neg hae] at hfa
      have hne := h a (by rw [hma]; exact ha) hae
      simp at hfa
      exact hne hfa

theorem not_mem_userAppendBlock (fmt : String → String) (da : AssocS) (K : String) :
    ∀ pairs : List (String × Json),
      (∀ pr ∈ pairs, pr.1 = K → assocHasKey da K = true) →
      (∀ pr ∈ pairs, pr.1 ≠ K → pr.2.truthy = true → fmt (pyStr pr.2) ≠ "-" ++ K) →
      some ("-" ++ K) ∉ userAppendBlock fmt da pairs := by
  intro pairs
  induction pairs with
  | nil => intro _ _; simp [userAppendBlock]
  | cons q rest ih =>
    intro h1 h2
    obtain ⟨key, value⟩ := q
    have h1' := fun pr hpr => h1 pr (List.mem_cons_of_mem _ hpr)
    have h2' := fun pr hpr => h2 pr (List.mem_cons_of_mem _ hpr)
    rw [userAppendBlock]
    by_cases hk : assocHasKey da key = true
    · rw [if_pos hk]
      exact ih h1' h2'
    · rw [if_neg hk]
      have hkey : key ≠ K := by
        intro heq
        apply hk
        rw [heq]
        exact h1 (key, value) (List.mem_cons_self _ _) heq
      intro hmem
      rcases List.mem_cons.mp hmem with hm1 | hm1
      · exact hkey (strAppend_inj (by simpa using hm1.symm))
      · rw [List.mem_append] at hm1
        rcases hm1 with hm2 | hm2
        · rw [extractVal_single] at hm2
          by_cases ht : value.truthy = true
          · rw [if_pos ht] at hm2
            rcases List.mem_cons.mp hm2 with hm3 | hm3
            · exact h2 (key, value) (List.mem_cons_self _ _) hkey ht
                (by simpa using hm3.symm)
            · cases hm3
          · rw [if_neg ht] at hm2
            cases hm2
        · exact ih h1' h2' hm2

theorem not_mem_userAppendSection {inp : QemuArgsInput} {K : String}
    (h1 : ∀ block ∈ inp.configArgs, ∀ pr ∈ block, pr.1 = K →
        assocHasKey (finalDefaults inp).1 K = true)
    (h2 : ∀ block ∈ inp.configArgs, ∀ pr ∈ block, pr.1 ≠ K →
        pr.2.truthy = true → inp.fmt (pyStr pr.2) ≠ "-" ++ K) :
    some ("-" ++ K) ∉ userAppendSection inp := by
  unfold userAppendSection
  intro hmem
  rw [List.mem_flatten] at hmem
  obtain ⟨bl, hbl, hmem2⟩ := hmem
  rw [List.mem_map] at hbl
  obtain ⟨block, hblock, rfl⟩ := hbl
  exact not_mem_userAppendBlock inp.fmt (finalDefaults inp).1 K block
    (fun pr hpr => h1 block hblock pr hpr)
    (fun pr hpr => h2 block hblock pr hpr) hmem2

theorem flag_ne_empty (K : String) : "-" ++ K ≠ "" := by
  intro h
  have := congrArg String.data h
  rw [String.data_append] at this
  cases this

theorem mem_keyPairsFor {pairs : List (String × Json)} {k : String} {w : Json}
    (h : (k, w) ∈ pairs) : w ∈ keyPairsFor pairs k := by
  unfold keyPairsFor
  rw [List.mem_map]
  exact ⟨(k, w), List.mem_filter.mpr ⟨h, by simp⟩, rfl⟩

theorem mapF_count_zero (fmt : String → String) (K : String) (l : List String)
    (h : ∀ a ∈ l, a ≠ "" → fmt a ≠ "-" ++ K) :
    (l.map (fun a => if a = "" then none else some (fmt a))).count
      (some ("-" ++ K)) = 0 := by
  rw [List.count_eq_zero]
  intro hmem
  rw [List.mem_map] at hmem
  obtain ⟨a, ha, hfa⟩ := hmem
  by_cases hae : a = ""
  · rw [if_pos hae] at hfa
    cases hfa
  · rw [if_neg hae] at hfa
    simp at hfa
    exact h a ha hae hfa

theorem defaults0_hasKey {K : String} (c : String)
    (hK : K ∈ ["cpu", "machine", "accel", "m", "smp"]) :
    assocHasKey (defaults0 c) K = true := by
  fin_cases hK <;> rfl

theorem defaults0_keys (c : String) :
    (defaults0 c).map Prod.fst = ["cpu", "machine", "accel", "m", "smp"] := rfl

theorem defaults0_value_ne_flag {inp : QemuArgsInput} {K : String}
    {p : String × String}
    (hcpu : inp.cpuCount ≠ "-" ++ K) (hp : p ∈ defaults0 inp.cpuCount) :
    p.2 ≠ "-" ++ K := by
  unfold defaults0 at hp
  rcases List.mem_cons.mp hp with rfl | hp
  · exact lit_ne_flag "max" K (by decide)
  rcases List.mem_cons.mp hp with rfl | hp
  · exact lit_ne_flag "type=q35,hpet=off" K (by decide)
  rcases List.mem_cons.mp hp with rfl | hp
  · exact lit_ne_flag "kvm" K (by decide)
  rcases List.mem_cons.mp hp with rfl | hp
  · exact lit_ne_flag "1G" K (by decide)
  rcases List.mem_cons.mp hp with rfl | hp
  · exact hcpu
  cases hp

theorem finalDefaults_keys_nodup (inp : QemuArgsInput) :
    (((finalDefaults inp).1).map Prod.fst).Nodup := by
  have hd0 : ((defaults0 inp.cpuCount).map Prod.fst).Nodup := by
    rw [defaults0_keys]
    decide
  unfold finalDefaults
  cases hma : inp.manifestArgs with
  | none =>
    simp only [user_args_pass_eq]
    rw [user_block_keys]
    exact hd0
  | some qa =>
    simp only [user_args_pass_eq]
    rw [user_block_keys]
    exact (image_pass_keys_sublist qa _ _).nodup hd0

theorem finalDefaults_entries (inp : QemuArgsInput) (p : String × String)
    (hp : p ∈ (finalDefaults inp).1) :
    p ∈ defaults0 inp.cpuCount
      ∨ ∃ value : Json, (p.1, value) ∈ inp.configArgs.flatten
          ∧ value.truthy = true ∧ p.2 = inp.fmt (pyStr value) := by
  unfold finalDefaults at hp
  cases hma : inp.manifestArgs with
  | none =>
    rw [hma] at hp
    simp only [user_args_pass_eq] at hp
    exact user_block_entries inp.fmt _ _ _ p hp
  | some qa =>
    rw [hma] at hp
    simp only [user_args_pass_eq] at hp
    rcases user_block_entries inp.fmt _ _ _ p hp with h | h
    · exact Or.inl (image_pass_entries qa _ _ p h)
    · exact Or.inr h

theorem finalDefaults_K_user {inp : QemuArgsInput} {K : String} {value : Json}
    (hK : K ∈ ["cpu", "machine", "accel", "m", "smp"])
    (himg : ∀ a ∈ inp.manifestArgs.getD [],
        ¬(strStartsWith a "-" = true ∧ strDropChars a 1 = K))
    (hkp : userPairsFor inp.configArgs K = [value])
    (htr : value.truthy = true) :
    assocLookup (finalDefaults inp).1 K = some (inp.fmt (pyStr value))
      ∧ assocHasKey (finalDefaults inp).1 K = true := by
  have hd0 := defaults0_hasKey inp.cpuCount hK
  unfold finalDefaults
  cases hma : inp.manifestArgs with
  | none =>
    simp only [user_args_pass_eq]
    refine ⟨user_block_K_lookup inp.fmt _ _ _ hd0 hkp htr, ?_⟩
    rw [user_block_hasKey]
    exact hd0
  | some qa =>
    rw [hma] at himg
    simp only [user_args_pass_eq]
    have himgK := image_pass_K_preserved qa (defaults0 inp.cpuCount) "1G"
      (by simpa using himg)
    have hhk : assocHasKey (image_args_pass qa (defaults0 inp.cpuCount) "1G").1 K
        = true := by
      rw [himgK.1]
      exact hd0
    refine ⟨user_block_K_lookup inp.fmt _ _ _ hhk hkp htr, ?_⟩
    rw [user_block_hasKey]
    exact hhk

theorem finalDefaults_K_image {inp : QemuArgsInput} {K : String} {qa : List String}
    (hma : inp.manifestArgs = some qa)
    (hqa : ∃ a ∈ qa, strStartsWith a "-" = true ∧ strDropChars a 1 = K) :
    assocHasKey (finalDefaults inp).1 K = false := by
  unfold finalDefaults
  rw [hma]
  simp only [user_args_pass_eq]
  rw [user_block_hasKey]
  exact image_pass_pops qa _ _ hqa

theorem not_mem_volumeSection {inp : QemuArgsInput} {K : String}
    (hK : K ∈ ["cpu", "machine", "accel", "m", "smp"]) :
    some ("-" ++ K) ∉ volumeSection inp :=
  not_mem_volumeLoop hK inp.volumes 0

theorem flag_startsWith_dash (K : String) :
    strStartsWith ("-" ++ K) "-" = true := by
  simp [strStartsWith, String.data_append, List.isPrefixOf]

theorem flag_drop_one (K : String) : strDropChars ("-" ++ K) 1 = K := by
  obtain ⟨l⟩ := K
  simp [strDropChars, String.data_append]

/-- C2: for every default key K in {cpu, machine, accel, m, smp}: if
the runtime config's `qemu_args` sets K (exactly once, to a truthy
value expanding to v), and the image manifest does not mention `-K`,
the vector contains the flag `-K` exactly once, immediately followed by
v, in the defaults block; if instead the image manifest's `qemu_args`
contains `-K` followed by w and the runtime config does not set K, the
built-in default for K is dropped from the default set and the vector
contains `-K` exactly once, immediately followed by the expanded w.
The sanity hypotheses rule out unrelated argument strings that happen
to equal the flag `-K` itself. -/
theorem c2_default_override :
    (∀ (inp : QemuArgsInput) (K v : String),
        K ∈ ["cpu", "machine", "accel", "m", "smp"] →
        (∃ value : Json, userPairsFor inp.configArgs K = [value]
            ∧ value.truthy = true ∧ inp.fmt (pyStr value) = v) →
        (∀ a ∈ inp.manifestArgs.getD [],
            ¬(strStartsWith a "-" = true ∧ strDropChars a 1 = K)) →
        (∀ a ∈ inp.manifestArgs.getD [], a ≠ "" → inp.fmt a ≠ "-" ++ K) →
        inp.vm_name ≠ some ("-" ++ K) →
        inp.cpuCount ≠ "-" ++ K →
        v ≠ "-" ++ K →
        (∀ pr ∈ inp.configArgs.flatten, pr.1 ≠ K →
            pr.2.truthy = true → inp.fmt (pyStr pr.2) ≠ "-" ++ K) →
        (setup_qemu_args inp).count (some ("-" ++ K)) = 1
          ∧ List.IsInfix [some ("-" ++ K), some v] (setup_qemu_args inp))
    ∧ (∀ (inp : QemuArgsInput) (K w : String) (pre post : List String),
        K ∈ ["cpu", "machine", "accel", "m", "smp"] →
        inp.manifestArgs = some (pre ++ ("-" ++ K) :: w :: post) →
        (∀ pr ∈ inp.configArgs.flatten, pr.1 ≠ K) →
        (∀ a ∈ pre ++ post,
            ¬(strStartsWith a "-" = true ∧ strDropChars a 1 = K)) →
        (∀ a ∈ pre ++ post, a ≠ "" → inp.fmt a ≠ "-" ++ K) →
        inp.fmt ("-" ++ K) = "-" ++ K →
        w ≠ "" → inp.fmt w ≠ "-" ++ K →
        inp.vm_name ≠ some ("-" ++ K) →
        inp.cpuCount ≠ "-" ++ K →
        (∀ pr ∈ inp.configArgs.flatten,
            pr.2.truthy = true → inp.fmt (pyStr pr.2) ≠ "-" ++ K) →
        assocHasKey (finalDefaults inp).1 K = false
          ∧ (setup_qemu_args inp).count (some ("-" ++ K)) = 1
          ∧ List.IsInfix [some ("-" ++ K), some (inp.fmt w)]
              (setup_qemu_args inp)) := by
  constructor
  · rintro inp K v hK ⟨value, hkp, htr, hfv⟩ himg1 himg2 hname hcpu hv huv
    have hfd := finalDefaults_K_user hK himg1 hkp htr
    have hlook : assocLookup (finalDefaults inp).1 K = some v := by
      rw [hfd.1, hfv]
    have hhas := hfd.2
    have hmemKv : (K, v) ∈ (finalDefaults inp).1 := assocLookup_mem _ hlook
    have hnd := finalDefaults_keys_nodup inp
    have hvals : ∀ p ∈ (finalDefaults inp).1, p.2 ≠ "-" ++ K := by
      intro p hp
      rcases finalDefaults_entries inp p hp with h | ⟨wv, hw1, hw2, hw3⟩
      · exact defaults0_value_ne_flag hcpu h
      · by_cases hpk : p.1 = K
        · rw [hpk] at hw1
          have hmemw : wv ∈ userPairsFor inp.configArgs K := mem_keyPairsFor hw1
          rw [hkp] at hmemw
          simp at hmemw
          subst hmemw
          rw [hw3, hfv]
          exact hv
        · rw [hw3]
          exact huv (p.1, wv) hw1 hpk hw2
    have hcnt_def : (defaultsSection inp).count (some ("-" ++ K)) = 1 := by
      unfold defaultsSection
      rw [count_defaults_eq K _ hvals]
      exact filter_key_len_one _ hnd hmemKv
    have huser0 : some ("-" ++ K) ∉ userAppendSection inp :=
      not_mem_userAppendSection (fun _ _ _ _ _ => hhas)
        (fun block hb pr hpr h1 h2 =>
          huv pr (List.mem_flatten.mpr ⟨block, hb, hpr⟩) h1 h2)
    constructor
    · unfold setup_qemu_args
      simp only [List.count_append]
      rw [List.count_eq_zero.mpr (not_mem_nameSection hK hname),
        hcnt_def,
        List.count_eq_zero.mpr (not_mem_hostnameSection hK),
        List.count_eq_zero.mpr (not_mem_networkSection hK),
        List.count_eq_zero.mpr (not_mem_cidSection hK),
        List.count_eq_zero.mpr (not_mem_sshSection hK),
        List.count_eq_zero.mpr (not_mem_driveSection hK),
        List.count_eq_zero.mpr (not_mem_volumeSection hK),
        List.count_eq_zero.mpr (not_mem_memSection hK),
        imageAppend_count_zero himg2,
        List.count_eq_zero.mpr huser0]
    · obtain ⟨L1, L2, hL⟩ := List.append_of_mem hmemKv
      refine ⟨nameSection inp
          ++ L1.flatMap (fun p => [some ("-" ++ p.1), some p.2]),
        (L2.flatMap (fun p => [some ("-" ++ p.1), some p.2]))
          ++ hostnameSection inp ++ networkSection inp ++ cidSection inp
          ++ sshSection inp ++ driveSection inp ++ volumeSection inp
          ++ memSection inp ++ imageAppendSection inp ++ userAppendSection inp,
        ?_⟩
      unfold setup_qemu_args defaultsSection
      rw [hL]
      simp [List.flatMap_append, List.flatMap_cons, List.append_assoc]
  · rintro inp K w pre post hK hma hnoU hpp1 hpp2 hfmtflag hwne hfmtw hname hcpu huv
    have hflagmem : ("-" ++ K) ∈ pre ++ ("-" ++ K) :: w :: post := by
      rw [List.mem_append]
      exact Or.inr (List.mem_cons_self _ _)
    have hhasF : assocHasKey (finalDefaults inp).1 K = false :=
      finalDefaults_K_image hma
        ⟨"-" ++ K, hflagmem, flag_startsWith_dash K, flag_drop_one K⟩
    have hvals : ∀ p ∈ (finalDefaults inp).1, p.2 ≠ "-" ++ K := by
      intro p hp
      rcases finalDefaults_entries inp p hp with h | ⟨wv, hw1, hw2, hw3⟩
      · exact defaults0_value_ne_flag hcpu h
      · rw [hw3]
        exact huv (p.1, wv) hw1 hw2
    have hcnt_def : (defaultsSection inp).count (some ("-" ++ K)) = 0 := by
      unfold defaultsSection
      rw [count_defaults_eq K _ hvals]
      exact filter_key_len_zero _ hhasF
    have hpre2 : ∀ a ∈ pre, a ≠ "" → inp.fmt a ≠ "-" ++ K := by
      intro a ha
      exact hpp2 a (List.mem_append.mpr (Or.inl ha))
    have hpost2 : ∀ a ∈ post, a ≠ "" → inp.fmt a ≠ "-" ++ K := by
      intro a ha
      exact hpp2 a (List.mem_append.mpr (Or.inr ha))
    have himg_eq : imageAppendSection inp
        = (pre.map (fun a => if a = "" then none else some (inp.fmt a)))
          ++ some ("-" ++ K)
            :: some (inp.fmt w)
            :: (post.map (fun a => if a = "" then none else some (inp.fmt a))) := by
      unfold imageAppendSection
      rw [hma]
      show (pre ++ ("-" ++ K) :: w :: post).map
          (fun a => if a = "" then none else some (inp.fmt a)) = _
      rw [List.map_append, List.map_cons, List.map_cons]
      rw [if_neg (flag_ne_empty K), if_neg hwne, hfmtflag]
    have hcnt_img : (imageAppendSection inp).count (some ("-" ++ K)) = 1 := by
      rw [himg_eq, List.count_append, List.count_cons, List.count_cons]
      rw [mapF_count_zero inp.fmt K pre hpre2, mapF_count_zero inp.fmt K post hpost2]
      simp [hfmtw]
    have huser0 : some ("-" ++ K) ∉ userAppendSection inp :=
      not_mem_userAppendSection
        (fun block hb pr hpr hk =>
          absurd hk (hnoU pr (List.mem_flatten.mpr ⟨block, hb, hpr⟩)))
        (fun block hb pr hpr _ h2 =>
          huv pr (List.mem_flatten.mpr ⟨block, hb, hpr⟩) h2)
    refine ⟨hhasF, ?_, ?_⟩
    · unfold setup_qemu_args
      simp only [List.count_append]
      rw [List.count_eq_zero.mpr (not_mem_nameSection hK hname),
        hcnt_def,
        List.count_eq_zero.mpr (not_mem_hostnameSection hK),
        List.count_eq_zero.mpr (not_mem_networkSection hK),
        List.count_eq_zero.mpr (not_mem_cidSection hK),
        List.count_eq_zero.mpr (not_mem_sshSection hK),
        List.count_eq_zero.mpr (not_mem_driveSection hK),
        List.count_eq_zero.mpr (not_mem_volumeSection hK),
        List.count_eq_zero.mpr (not_mem_memSection hK),
        hcnt_img,
        List.count_eq_zero.mpr huser0]
    · refine ⟨nameSection inp ++ defaultsSection inp ++ hostnameSection inp
          ++ networkSection inp ++ cidSection inp ++ sshSection inp
          ++ driveSection inp ++ volumeSection inp ++ memSection inp
          ++ (pre.map (fun a => if a = "" then none else some (inp.fmt a))),
        (post.map (fun a => if a = "" then none else some (inp.fmt a)))
          ++ userAppendSection inp, ?_⟩
      unfold setup_qemu_args
      rw [himg_eq]
      simp [List.append_assoc]

/-- A concrete run: user config overrides the `m` default with `2G`. -/
def witnessInput : QemuArgsInput :=
  { vm_name := some "demo"
    cpuCount := "4"
    network := some "user"
    ports := []
    volumes := []
    cid := 1000
    pub_b64 := "QUJD"
    fstab_b64 := fun _ => ""
    fmt := fun s => s
    instanceDir := "/inst"
    manifestArgs := none
    configArgs := [[("m", Json.str "2G")]]
    overlays := []
    configInstanceSet := false
    discovered := []
    virtiofsdOk := fun _ => false }

/-- C2 witness: the user-override branch of the theorem on a concrete
input where `qemu_args` sets `m` to `2G`. -/
theorem c2_default_override_witness :
    (setup_qemu_args witnessInput).count (some ("-" ++ "m")) = 1
      ∧ List.IsInfix [some ("-" ++ "m"), some "2G"] (setup_qemu_args witnessInput) :=
  c2_default_override.1 witnessInput "m" "2G" (by decide)
    ⟨Json.str "2G", rfl, rfl, rfl⟩
    (by intro a ha; simp [witnessInput] at ha)
    (by intro a ha; simp [witnessInput] at ha)
    (by decide) (by decide) (by decide) (by decide)

end QemuCompose
